import Mathlib

/-!
Shallow embedding of the quadtree spatial index in `src/quadtree.rs`
(repository `spatialize-rs`), together with proofs of the specified
properties of `insert`, `subdivide` and `get_rect`.

Coordinates are modelled by `ℚ`: the Rust code uses `f32`, but every
operation of the quadtree only compares coordinates and halves extents,
so the control flow is captured exactly by ordered-field arithmetic.

`insert` can recurse without bound (the code has no depth cap), so it is
modelled with explicit fuel: `Option.none` means the fuel ran out, and
`Option.some (t, r)` gives the updated tree together with the
`Result<(), String>` value the Rust function returns.  `get_rect` is
structurally recursive and is modelled directly; it returns the final
state of the output vector together with its `Result`.
-/

/-- An object implementing the Rust `Sized` trait: the four edge
coordinates, plus an identifier standing for the `Rc` identity of the
object (distinct objects may share all four edges). -/
structure Obj where
  oid : Nat
  north : ℚ
  east : ℚ
  south : ℚ
  west : ℚ
deriving DecidableEq, Repr

/-- The result type of the Rust methods: `Result<(), String>`. -/
abbrev RustRes := Except String Unit

mutual
/-- The `Quadtree` struct of `quadtree.rs`: bounds anchored at the
north-west corner, one `divided` flag, four optional children and a
vector of contents. -/
inductive Quadtree where
  | node (position_x position_y width height : ℚ) (divided : Bool)
      (northeast_quad northwest_quad southeast_quad southwest_quad : OQuad)
      (contents : List Obj)
/-- `Option<Rc<RefCell<Quadtree>>>`: an optional child slot. -/
inductive OQuad where
  | none
  | some (t : Quadtree)
end

def Quadtree.position_x : Quadtree → ℚ
  | .node px _ _ _ _ _ _ _ _ _ => px

def Quadtree.position_y : Quadtree → ℚ
  | .node _ py _ _ _ _ _ _ _ _ => py

def Quadtree.width : Quadtree → ℚ
  | .node _ _ w _ _ _ _ _ _ _ => w

def Quadtree.height : Quadtree → ℚ
  | .node _ _ _ h _ _ _ _ _ _ => h

def Quadtree.divided : Quadtree → Bool
  | .node _ _ _ _ dv _ _ _ _ _ => dv

def Quadtree.northeast_quad : Quadtree → OQuad
  | .node _ _ _ _ _ ne _ _ _ _ => ne

def Quadtree.northwest_quad : Quadtree → OQuad
  | .node _ _ _ _ _ _ nw _ _ _ => nw

def Quadtree.southeast_quad : Quadtree → OQuad
  | .node _ _ _ _ _ _ _ se _ _ => se

def Quadtree.southwest_quad : Quadtree → OQuad
  | .node _ _ _ _ _ _ _ _ sw _ => sw

def Quadtree.contents : Quadtree → List Obj
  | .node _ _ _ _ _ _ _ _ _ cs => cs

/-- The constructor `Quadtree::new`: a leaf with the given bounds, no
children, empty contents. -/
def Quadtree.new (position_x position_y width height : ℚ) : Quadtree :=
  .node position_x position_y width height false .none .none .none .none []

/-- The private method `Quadtree::subdivide`: if not yet divided, create
the four quadrant
children (northeast, northwest, southeast, southwest) with half extents,
and mark the node divided; otherwise do nothing. -/
def Quadtree.subdivide : Quadtree → Quadtree
  | .node px py w h dv ne nw se sw cs =>
    if !dv then
      .node px py w h true
        (.some (Quadtree.new (px + w / 2) py (w / 2) (h / 2)))
        (.some (Quadtree.new px py (w / 2) (h / 2)))
        (.some (Quadtree.new (px + w / 2) (py - h / 2) (w / 2) (h / 2)))
        (.some (Quadtree.new px (py - h / 2) (w / 2) (h / 2)))
        cs
    else
      .node px py w h dv ne nw se sw cs

/-- The containment test of `Quadtree::insert` (lines 130-134): the
object must fit entirely inside the rectangle anchored at `(px, py)` with
extents `(w, h)`. -/
def fitsE (o : Obj) (px py w h : ℚ) : Bool :=
  decide (o.north ≤ py) && decide (o.east ≤ px + w)
    && decide (o.south ≥ py - h) && decide (o.west ≥ px)

/-- Containment of an object within a node's bounds. -/
def fitsQ (o : Obj) (t : Quadtree) : Bool :=
  fitsE o t.position_x t.position_y t.width t.height

def Quadtree.withNE : Quadtree → OQuad → Quadtree
  | .node px py w h dv _ nw se sw cs, ne => .node px py w h dv ne nw se sw cs

def Quadtree.withNW : Quadtree → OQuad → Quadtree
  | .node px py w h dv ne _ se sw cs, nw => .node px py w h dv ne nw se sw cs

def Quadtree.withSE : Quadtree → OQuad → Quadtree
  | .node px py w h dv ne nw _ sw cs, se => .node px py w h dv ne nw se sw cs

def Quadtree.withSW : Quadtree → OQuad → Quadtree
  | .node px py w h dv ne nw se _ cs, sw => .node px py w h dv ne nw se sw cs

def Quadtree.withContents : Quadtree → List Obj → Quadtree
  | .node px py w h dv ne nw se sw _, cs => .node px py w h dv ne nw se sw cs

/-- The "does not fit" error message of `Quadtree::insert`. -/
def unfitMsg : String := "Object does not fit within the Quadtree bounds."

/-- The "does not overlap" error message of `Quadtree::get_rect`. -/
def noOverlapMsg : String := "Rectangle does not overlap the Quadtree bounds."

/-- Lines 136-138 of `insert`: subdivide the node if it is not yet
divided, otherwise leave it as it is. -/
def preIns (t : Quadtree) : Quadtree := if !t.divided then t.subdivide else t

/-- One `if let Some(rc_ref) = &self.xxx_quad { if let Ok(_) = ... }`
attempt of `Quadtree::insert`: `ins` is the recursive insertion into the
child.  Returns the updated slot and whether the child accepted the
object; `Option.none` propagates fuel exhaustion. -/
def tryChild (ins : Quadtree → Option (Quadtree × RustRes)) :
    OQuad → Option (OQuad × Bool)
  | .none => Option.some (.none, false)
  | .some c =>
    match ins c with
    | Option.none => Option.none
    | Option.some (c', Except.ok _) => Option.some (.some c', true)
    | Option.some (c', Except.error _) => Option.some (.some c', false)

/-- The method `Quadtree::insert`, with fuel.  If the object fits the node's bounds,
subdivide when not yet divided, then try the four children in order
northeast, northwest, southeast, southwest; the first child that accepts
the object ends the call, and if none accepts it the object is pushed
onto this node's `contents`.  If the object does not fit, return the
"does not fit" error and leave the node untouched. -/
def insertF : Nat → Quadtree → Obj → Option (Quadtree × RustRes)
  | 0, _, _ => Option.none
  | n + 1, t, o =>
    if fitsQ o t then
      let t1 := preIns t
      match tryChild (fun c => insertF n c o) t1.northeast_quad with
      | Option.none => Option.none
      | Option.some (ne', true) => Option.some (t1.withNE ne', Except.ok ())
      | Option.some (ne', false) =>
        let t2 := t1.withNE ne'
        match tryChild (fun c => insertF n c o) t2.northwest_quad with
        | Option.none => Option.none
        | Option.some (nw', true) => Option.some (t2.withNW nw', Except.ok ())
        | Option.some (nw', false) =>
          let t3 := t2.withNW nw'
          match tryChild (fun c => insertF n c o) t3.southeast_quad with
          | Option.none => Option.none
          | Option.some (se', true) => Option.some (t3.withSE se', Except.ok ())
          | Option.some (se', false) =>
            let t4 := t3.withSE se'
            match tryChild (fun c => insertF n c o) t4.southwest_quad with
            | Option.none => Option.none
            | Option.some (sw', true) =>
              Option.some (t4.withSW sw', Except.ok ())
            | Option.some (sw', false) =>
              let t5 := t4.withSW sw'
              Option.some (t5.withContents (t5.contents ++ [o]), Except.ok ())
    else
      Option.some (t, Except.error unfitMsg)

/-- The disjointness test of `Quadtree::get_rect` (lines 193-196): the
probe is strictly outside the node's bounds on some side.  Probes that
merely touch a bound are not disjoint. -/
def strictDisjoint (r : Obj) (t : Quadtree) : Bool :=
  decide (r.north < t.position_y - t.height) || decide (r.east < t.position_x)
    || decide (r.south > t.position_y)
    || decide (r.west > t.position_x + t.width)

mutual
/-- The method `Quadtree::get_rect`: if the probe overlaps the node's
bounds, first
recurse into the four children (when divided), each child's error being
swallowed, then append this node's `contents` to the output vector;
otherwise return the "does not overlap" error with the vector untouched. -/
def getRect : Quadtree → Obj → List Obj → List Obj × RustRes
  | .node px py w h dv ne nw se sw cs, r, vec =>
    if !(decide (r.north < py - h) || decide (r.east < px)
        || decide (r.south > py) || decide (r.west > px + w)) then
      let v1 :=
        if dv then
          getRectO sw r (getRectO se r (getRectO nw r (getRectO ne r vec)))
        else vec
      (v1 ++ cs, Except.ok ())
    else
      (vec, Except.error noOverlapMsg)
/-- The `let _ = rc_ref.borrow().get_rect(...)` call on one child slot:
run the query for its effect on the vector, ignoring the result (an
erroring child leaves the vector as it was). -/
def getRectO : OQuad → Obj → List Obj → List Obj
  | .none, _, vec => vec
  | .some t, r, vec => (getRect t r vec).fst
end

mutual
/-- The objects a query reaching this node appends: the children's
objects (only when the node is divided, in the order northeast,
northwest, southeast, southwest) followed by this node's `contents`. -/
def collect : Quadtree → List Obj
  | .node _ _ _ _ dv ne nw se sw cs =>
    (if dv then collectO ne ++ collectO nw ++ collectO se ++ collectO sw
     else []) ++ cs
def collectO : OQuad → List Obj
  | .none => []
  | .some t => collect t
end

mutual
/-- Every object stored anywhere in a node's subtree, children included
whether or not the node is marked divided. -/
def allObjs : Quadtree → List Obj
  | .node _ _ _ _ _ ne nw se sw cs =>
    allObjsO ne ++ allObjsO nw ++ allObjsO se ++ allObjsO sw ++ cs
def allObjsO : OQuad → List Obj
  | .none => []
  | .some t => allObjs t
end

/-- Whether a child slot is occupied. -/
def isSomeO : OQuad → Bool
  | .none => false
  | .some _ => true

/-- When a child slot is occupied, its node has exactly the given bounds
(the quadrant anchored at `(cx, cy)` with extents `(cw, ch)`). -/
def childBoundsO (c : OQuad) (cx cy cw ch : ℚ) : Bool :=
  match c with
  | .none => true
  | .some t =>
    decide (t.position_x = cx) && decide (t.position_y = cy)
      && decide (t.width = cw) && decide (t.height = ch)

mutual
/-- The structural subdivision invariant of the spec: a node is divided
exactly when all four children are present, and every present child
covers the quadrant of its parent it is named after, with half extents. -/
def quadInv : Quadtree → Bool
  | .node px py w h dv ne nw se sw _ =>
    (dv == (isSomeO ne && isSomeO nw && isSomeO se && isSomeO sw))
      && childBoundsO ne (px + w / 2) py (w / 2) (h / 2)
      && childBoundsO nw px py (w / 2) (h / 2)
      && childBoundsO se (px + w / 2) (py - h / 2) (w / 2) (h / 2)
      && childBoundsO sw px (py - h / 2) (w / 2) (h / 2)
      && quadInvO ne && quadInvO nw && quadInvO se && quadInvO sw
def quadInvO : OQuad → Bool
  | .none => true
  | .some t => quadInv t
end

mutual
/-- Every node of the subtree has nonnegative extents and bounds inside
the rectangle anchored at `(ax, ay)` with extents `(aw, ah)`. -/
def boxedB (ax ay aw ah : ℚ) : Quadtree → Bool
  | .node px py w h _ ne nw se sw _ =>
    decide (ax ≤ px) && decide (px + w ≤ ax + aw) && decide (py ≤ ay)
      && decide (ay - ah ≤ py - h) && decide (0 ≤ w) && decide (0 ≤ h)
      && boxedO ax ay aw ah ne && boxedO ax ay aw ah nw
      && boxedO ax ay aw ah se && boxedO ax ay aw ah sw
def boxedO (ax ay aw ah : ℚ) : OQuad → Bool
  | .none => true
  | .some t => boxedB ax ay aw ah t
end

mutual
/-- The containment invariant of the spec: every object stored anywhere
in the subtree rooted at a node fits entirely within that node's bounds,
recursively at every node. -/
def containB : Quadtree → Bool
  | .node px py w h dv ne nw se sw cs =>
    (allObjs (.node px py w h dv ne nw se sw cs)).all
        (fun o => fitsE o px py w h)
      && containO ne && containO nw && containO se && containO sw
def containO : OQuad → Bool
  | .none => true
  | .some t => containB t
end

/-- Insert the objects of a list one after the other, requiring every
insert to succeed with the given fuel. -/
def buildL (n : Nat) : Quadtree → List Obj → Option Quadtree
  | t, [] => Option.some t
  | t, o :: os =>
    match insertF n t o with
    | Option.some (t', Except.ok _) => buildL n t' os
    | _ => Option.none

/-- A probe object whose edges are exactly the rectangle anchored at
`(ax, ay)` with extents `(aw, ah)`. -/
def fullProbe (ax ay aw ah : ℚ) : Obj :=
  ⟨0, ay, ax + aw, ay - ah, ax⟩

/-- A zero-size object (all four edges equal) sitting at the point
`(px, py)`. -/
def cornerObj (px py : ℚ) : Obj := ⟨0, py, px, py, px⟩

/-- The root of the demo in `main.rs`: anchored at `(-200, 200)`,
400 wide and 400 tall. -/
def demoRoot : Quadtree := Quadtree.new (-200) 200 400 400

/-- Rectangle A of the demo: position `(1, 1)`, size `(2, 2)`. -/
def demoA : Obj := ⟨1, 1, 3, -1, 1⟩

/-- Rectangle B of the demo: position `(190, 190)`, size `(2, 2)`. -/
def demoB : Obj := ⟨2, 190, 192, 188, 190⟩

/-- The probe of the demo: anchored `(-199, 199)`, 360 wide and tall. -/
def demoProbe : Obj := ⟨0, 199, 161, -161, -199⟩

/-- The tree after inserting rectangle A into the demo root: the root
subdivides once and A lands in the root's own contents. -/
def demoT1 : Quadtree := Quadtree.node (-200) 200 400 400 true
  (OQuad.some (Quadtree.new 0 200 200 200))
  (OQuad.some (Quadtree.new (-200) 200 200 200))
  (OQuad.some (Quadtree.new 0 0 200 200))
  (OQuad.some (Quadtree.new (-200) 0 200 200)) [demoA]

/-- A divided node used by concrete checks: bounds anchored `(0, 4)`,
width and height 4, with the four quadrant children present and empty. -/
def demoT0 : Quadtree := Quadtree.node 0 4 4 4 true
  (OQuad.some (Quadtree.new 2 4 2 2)) (OQuad.some (Quadtree.new 0 4 2 2))
  (OQuad.some (Quadtree.new 2 2 2 2)) (OQuad.some (Quadtree.new 0 2 2 2)) []

/-- An object straddling the centre `(2, 2)` of `demoT0`. -/
def demoO : Obj := ⟨3, 3, 3, 1, 1⟩

/-- An object lying north of the demo root's bounds. -/
def demoOut : Obj := ⟨9, 300, 1, 299, 0⟩

/-- A probe entirely west of the demo root's bounds. -/
def demoFar : Obj := ⟨7, 0, -300, -1, -400⟩

@[simp] theorem position_x_node (px py w h : ℚ) (dv : Bool) (ne nw se sw : OQuad) (cs : List Obj) :
    (Quadtree.node px py w h dv ne nw se sw cs).position_x = px := rfl

@[simp] theorem position_y_node (px py w h : ℚ) (dv : Bool) (ne nw se sw : OQuad) (cs : List Obj) :
    (Quadtree.node px py w h dv ne nw se sw cs).position_y = py := rfl

@[simp] theorem width_node (px py w h : ℚ) (dv : Bool) (ne nw se sw : OQuad) (cs : List Obj) :
    (Quadtree.node px py w h dv ne nw se sw cs).width = w := rfl

@[simp] theorem height_node (px py w h : ℚ) (dv : Bool) (ne nw se sw : OQuad) (cs : List Obj) :
    (Quadtree.node px py w h dv ne nw se sw cs).height = h := rfl

@[simp] theorem divided_node (px py w h : ℚ) (dv : Bool) (ne nw se sw : OQuad) (cs : List Obj) :
    (Quadtree.node px py w h dv ne nw se sw cs).divided = dv := rfl

@[simp] theorem northeast_quad_node (px py w h : ℚ) (dv : Bool) (ne nw se sw : OQuad) (cs : List Obj) :
    (Quadtree.node px py w h dv ne nw se sw cs).northeast_quad = ne := rfl

@[simp] theorem northwest_quad_node (px py w h : ℚ) (dv : Bool) (ne nw se sw : OQuad) (cs : List Obj) :
    (Quadtree.node px py w h dv ne nw se sw cs).northwest_quad = nw := rfl

@[simp] theorem southeast_quad_node (px py w h : ℚ) (dv : Bool) (ne nw se sw : OQuad) (cs : List Obj) :
    (Quadtree.node px py w h dv ne nw se sw cs).southeast_quad = se := rfl

@[simp] theorem southwest_quad_node (px py w h : ℚ) (dv : Bool) (ne nw se sw : OQuad) (cs : List Obj) :
    (Quadtree.node px py w h dv ne nw se sw cs).southwest_quad = sw := rfl

@[simp] theorem contents_node (px py w h : ℚ) (dv : Bool) (ne nw se sw : OQuad) (cs : List Obj) :
    (Quadtree.node px py w h dv ne nw se sw cs).contents = cs := rfl

@[simp] theorem position_x_withNE (t : Quadtree) (q : OQuad) :
    (t.withNE q).position_x = t.position_x := by
  cases t; rfl

@[simp] theorem position_y_withNE (t : Quadtree) (q : OQuad) :
    (t.withNE q).position_y = t.position_y := by
  cases t; rfl

@[simp] theorem width_withNE (t : Quadtree) (q : OQuad) :
    (t.withNE q).width = t.width := by
  cases t; rfl

@[simp] theorem height_withNE (t : Quadtree) (q : OQuad) :
    (t.withNE q).height = t.height := by
  cases t; rfl

@[simp] theorem divided_withNE (t : Quadtree) (q : OQuad) :
    (t.withNE q).divided = t.divided := by
  cases t; rfl

@[simp] theorem northeast_quad_withNE (t : Quadtree) (q : OQuad) :
    (t.withNE q).northeast_quad = q := by
  cases t; rfl

@[simp] theorem northwest_quad_withNE (t : Quadtree) (q : OQuad) :
    (t.withNE q).northwest_quad = t.northwest_quad := by
  cases t; rfl

@[simp] theorem southeast_quad_withNE (t : Quadtree) (q : OQuad) :
    (t.withNE q).southeast_quad = t.southeast_quad := by
  cases t; rfl

@[simp] theorem southwest_quad_withNE (t : Quadtree) (q : OQuad) :
    (t.withNE q).southwest_quad = t.southwest_quad := by
  cases t; rfl

@[simp] theorem contents_withNE (t : Quadtree) (q : OQuad) :
    (t.withNE q).contents = t.contents := by
  cases t; rfl

@[simp] theorem position_x_withNW (t : Quadtree) (q : OQuad) :
    (t.withNW q).position_x = t.position_x := by
  cases t; rfl

@[simp] theorem position_y_withNW (t : Quadtree) (q : OQuad) :
    (t.withNW q).position_y = t.position_y := by
  cases t; rfl

@[simp] theorem width_withNW (t : Quadtree) (q : OQuad) :
    (t.withNW q).width = t.width := by
  cases t; rfl

@[simp] theorem height_withNW (t : Quadtree) (q : OQuad) :
    (t.withNW q).height = t.height := by
  cases t; rfl

@[simp] theorem divided_withNW (t : Quadtree) (q : OQuad) :
    (t.withNW q).divided = t.divided := by
  cases t; rfl

@[simp] theorem northeast_quad_withNW (t : Quadtree) (q : OQuad) :
    (t.withNW q).northeast_quad = t.northeast_quad := by
  cases t; rfl

@[simp] theorem northwest_quad_withNW (t : Quadtree) (q : OQuad) :
    (t.withNW q).northwest_quad = q := by
  cases t; rfl

@[simp] theorem southeast_quad_withNW (t : Quadtree) (q : OQuad) :
    (t.withNW q).southeast_quad = t.southeast_quad := by
  cases t; rfl

@[simp] theorem southwest_quad_withNW (t : Quadtree) (q : OQuad) :
    (t.withNW q).southwest_quad = t.southwest_quad := by
  cases t; rfl

@[simp] theorem contents_withNW (t : Quadtree) (q : OQuad) :
    (t.withNW q).contents = t.contents := by
  cases t; rfl

@[simp] theorem position_x_withSE (t : Quadtree) (q : OQuad) :
    (t.withSE q).position_x = t.position_x := by
  cases t; rfl

@[simp] theorem position_y_withSE (t : Quadtree) (q : OQuad) :
    (t.withSE q).position_y = t.position_y := by
  cases t; rfl

@[simp] theorem width_withSE (t : Quadtree) (q : OQuad) :
    (t.withSE q).width = t.width := by
  cases t; rfl

@[simp] theorem height_withSE (t : Quadtree) (q : OQuad) :
    (t.withSE q).height = t.height := by
  cases t; rfl

@[simp] theorem divided_withSE (t : Quadtree) (q : OQuad) :
    (t.withSE q).divided = t.divided := by
  cases t; rfl

@[simp] theorem northeast_quad_withSE (t : Quadtree) (q : OQuad) :
    (t.withSE q).northeast_quad = t.northeast_quad := by
  cases t; rfl

@[simp] theorem northwest_quad_withSE (t : Quadtree) (q : OQuad) :
    (t.withSE q).northwest_quad = t.northwest_quad := by
  cases t; rfl

@[simp] theorem southeast_quad_withSE (t : Quadtree) (q : OQuad) :
    (t.withSE q).southeast_quad = q := by
  cases t; rfl

@[simp] theorem southwest_quad_withSE (t : Quadtree) (q : OQuad) :
    (t.withSE q).southwest_quad = t.southwest_quad := by
  cases t; rfl

@[simp] theorem contents_withSE (t : Quadtree) (q : OQuad) :
    (t.withSE q).contents = t.contents := by
  cases t; rfl

@[simp] theorem position_x_withSW (t : Quadtree) (q : OQuad) :
    (t.withSW q).position_x = t.position_x := by
  cases t; rfl

@[simp] theorem position_y_withSW (t : Quadtree) (q : OQuad) :
    (t.withSW q).position_y = t.position_y := by
  cases t; rfl

@[simp] theorem width_withSW (t : Quadtree) (q : OQuad) :
    (t.withSW q).width = t.width := by
  cases t; rfl

@[simp] theorem height_withSW (t : Quadtree) (q : OQuad) :
    (t.withSW q).height = t.height := by
  cases t; rfl

@[simp] theorem divided_withSW (t : Quadtree) (q : OQuad) :
    (t.withSW q).divided = t.divided := by
  cases t; rfl

@[simp] theorem northeast_quad_withSW (t : Quadtree) (q : OQuad) :
    (t.withSW q).northeast_quad = t.northeast_quad := by
  cases t; rfl

@[simp] theorem northwest_quad_withSW (t : Quadtree) (q : OQuad) :
    (t.withSW q).northwest_quad = t.northwest_quad := by
  cases t; rfl

@[simp] theorem southeast_quad_withSW (t : Quadtree) (q : OQuad) :
    (t.withSW q).southeast_quad = t.southeast_quad := by
  cases t; rfl

@[simp] theorem southwest_quad_withSW (t : Quadtree) (q : OQuad) :
    (t.withSW q).southwest_quad = q := by
  cases t; rfl

@[simp] theorem contents_withSW (t : Quadtree) (q : OQuad) :
    (t.withSW q).contents = t.contents := by
  cases t; rfl

@[simp] theorem position_x_withContents (t : Quadtree) (xs : List Obj) :
    (t.withContents xs).position_x = t.position_x := by
  cases t; rfl

@[simp] theorem position_y_withContents (t : Quadtree) (xs : List Obj) :
    (t.withContents xs).position_y = t.position_y := by
  cases t; rfl

@[simp] theorem width_withContents (t : Quadtree) (xs : List Obj) :
    (t.withContents xs).width = t.width := by
  cases t; rfl

@[simp] theorem height_withContents (t : Quadtree) (xs : List Obj) :
    (t.withContents xs).height = t.height := by
  cases t; rfl

@[simp] theorem divided_withContents (t : Quadtree) (xs : List Obj) :
    (t.withContents xs).divided = t.divided := by
  cases t; rfl

@[simp] theorem northeast_quad_withContents (t : Quadtree) (xs : List Obj) :
    (t.withContents xs).northeast_quad = t.northeast_quad := by
  cases t; rfl

@[simp] theorem northwest_quad_withContents (t : Quadtree) (xs : List Obj) :
    (t.withContents xs).northwest_quad = t.northwest_quad := by
  cases t; rfl

@[simp] theorem southeast_quad_withContents (t : Quadtree) (xs : List Obj) :
    (t.withContents xs).southeast_quad = t.southeast_quad := by
  cases t; rfl

@[simp] theorem southwest_quad_withContents (t : Quadtree) (xs : List Obj) :
    (t.withContents xs).southwest_quad = t.southwest_quad := by
  cases t; rfl

@[simp] theorem contents_withContents (t : Quadtree) (xs : List Obj) :
    (t.withContents xs).contents = xs := by
  cases t; rfl

theorem subdivide_of_divided {t : Quadtree} (h : t.divided = true) :
    t.subdivide = t := by
  cases t with
  | node px py w h dv ne nw se sw cs =>
    simp only [divided_node] at h
    simp [Quadtree.subdivide, h]

theorem preIns_of_divided {t : Quadtree} (h : t.divided = true) :
    preIns t = t := by
  simp [preIns, h, subdivide_of_divided h]

theorem preIns_divided (t : Quadtree) : (preIns t).divided = true := by
  cases t with
  | node px py w h dv ne nw se sw cs =>
    cases dv <;> simp [preIns, Quadtree.subdivide]

theorem insertF_error {n : Nat} {t t' : Quadtree} {o : Obj} {e : String}
    (h : insertF n t o = Option.some (t', Except.error e)) :
    fitsQ o t = false ∧ t' = t ∧ e = unfitMsg := by
  cases n with
  | zero => simp [insertF] at h
  | succ n =>
    by_cases hf : fitsQ o t = true
    · exfalso
      simp only [insertF, hf, if_true] at h
      repeat' split at h
      all_goals simp_all
    · simp only [Bool.not_eq_true] at hf
      simp only [insertF, hf, Bool.false_eq_true, if_false] at h
      simp only [Option.some.injEq, Prod.mk.injEq, Except.error.injEq] at h
      exact ⟨hf, h.1.symm, h.2.symm⟩

theorem insertF_not_fits {n : Nat} {t : Quadtree} {o : Obj}
    (hf : fitsQ o t = false) :
    insertF (n + 1) t o = Option.some (t, Except.error unfitMsg) := by
  simp [insertF, hf]

theorem insertF_fits_ok {n : Nat} {t t' : Quadtree} {o : Obj} {r : RustRes}
    (hf : fitsQ o t = true) (h : insertF n t o = Option.some (t', r)) :
    r = Except.ok () := by
  cases r with
  | ok u => cases u; rfl
  | error e => exact absurd hf (by simp [(insertF_error h).1])

theorem tryChild_false {n : Nat} {o : Obj} {q q' : OQuad}
    (h : tryChild (fun c => insertF n c o) q = Option.some (q', false)) :
    q' = q := by
  cases q with
  | none => simp [tryChild] at h; simp [h]
  | some c =>
    simp only [tryChild] at h
    split at h
    · exact Option.noConfusion h
    · simp at h
    · rename_i c' e heq
      simp only [Option.some.injEq, Prod.mk.injEq] at h
      rw [← h.1, (insertF_error heq).2.1]

theorem tryChild_true {n : Nat} {o : Obj} {q q' : OQuad}
    (h : tryChild (fun c => insertF n c o) q = Option.some (q', true)) :
    ∃ c c', q = OQuad.some c ∧ insertF n c o = Option.some (c', Except.ok ())
      ∧ q' = OQuad.some c' := by
  cases q with
  | none => simp [tryChild] at h
  | some c =>
    simp only [tryChild] at h
    split at h
    · exact Option.noConfusion h
    · rename_i c' u heq
      cases u
      simp only [Option.some.injEq, Prod.mk.injEq] at h
      exact ⟨c, c', rfl, heq, h.1.symm⟩
    · simp at h

theorem withNE_self (t : Quadtree) : t.withNE t.northeast_quad = t := by
  cases t; rfl

theorem withNW_self (t : Quadtree) : t.withNW t.northwest_quad = t := by
  cases t; rfl

theorem withSE_self (t : Quadtree) : t.withSE t.southeast_quad = t := by
  cases t; rfl

theorem withSW_self (t : Quadtree) : t.withSW t.southwest_quad = t := by
  cases t; rfl

theorem insertF_ok_cases {n : Nat} {t t' : Quadtree} {o : Obj} {u : Unit}
    (h : insertF (n + 1) t o = Option.some (t', Except.ok u)) :
    fitsQ o t = true ∧
    ((∃ c c', (preIns t).northeast_quad = OQuad.some c ∧
        insertF n c o = Option.some (c', Except.ok ()) ∧
        t' = (preIns t).withNE (OQuad.some c')) ∨
      (∃ c c', (preIns t).northwest_quad = OQuad.some c ∧
        insertF n c o = Option.some (c', Except.ok ()) ∧
        t' = (preIns t).withNW (OQuad.some c')) ∨
      (∃ c c', (preIns t).southeast_quad = OQuad.some c ∧
        insertF n c o = Option.some (c', Except.ok ()) ∧
        t' = (preIns t).withSE (OQuad.some c')) ∨
      (∃ c c', (preIns t).southwest_quad = OQuad.some c ∧
        insertF n c o = Option.some (c', Except.ok ()) ∧
        t' = (preIns t).withSW (OQuad.some c')) ∨
      t' = (preIns t).withContents ((preIns t).contents ++ [o])) := by
  by_cases hf : fitsQ o t = true
  · refine ⟨hf, ?_⟩
    simp only [insertF, hf, if_true] at h
    rcases hp : preIns t with ⟨a, b, ww, hh, dv, qne, qnw, qse, qsw, cs⟩
    rw [hp] at h
    simp only [Quadtree.northeast_quad, Quadtree.northwest_quad,
      Quadtree.southeast_quad, Quadtree.southwest_quad, Quadtree.withNE,
      Quadtree.withNW, Quadtree.withSE, Quadtree.withSW,
      Quadtree.withContents, Quadtree.contents] at h ⊢
    split at h
    · exact Option.noConfusion h
    · rename_i ne' heq
      obtain ⟨c, c', hq, hins, hq'⟩ := tryChild_true heq
      simp only [Option.some.injEq, Prod.mk.injEq] at h
      exact Or.inl ⟨c, c', hq, hins, by rw [← h.1, hq']⟩
    · rename_i ne' heq
      rw [tryChild_false heq] at h
      split at h
      · exact Option.noConfusion h
      · rename_i nw' heq2
        obtain ⟨c, c', hq, hins, hq'⟩ := tryChild_true heq2
        simp only [Option.some.injEq, Prod.mk.injEq] at h
        exact Or.inr (Or.inl ⟨c, c', hq, hins, by rw [← h.1, hq']⟩)
      · rename_i nw' heq2
        rw [tryChild_false heq2] at h
        split at h
        · exact Option.noConfusion h
        · rename_i se' heq3
          obtain ⟨c, c', hq, hins, hq'⟩ := tryChild_true heq3
          simp only [Option.some.injEq, Prod.mk.injEq] at h
          exact Or.inr (Or.inr (Or.inl ⟨c, c', hq, hins, by rw [← h.1, hq']⟩))
        · rename_i se' heq3
          rw [tryChild_false heq3] at h
          split at h
          · exact Option.noConfusion h
          · rename_i sw' heq4
            obtain ⟨c, c', hq, hins, hq'⟩ := tryChild_true heq4
            simp only [Option.some.injEq, Prod.mk.injEq] at h
            exact Or.inr (Or.inr (Or.inr (Or.inl ⟨c, c', hq, hins, by
              rw [← h.1, hq']⟩)))
          · rename_i sw' heq4
            rw [tryChild_false heq4] at h
            simp only [Option.some.injEq, Prod.mk.injEq] at h
            exact Or.inr (Or.inr (Or.inr (Or.inr (by rw [← h.1]))))
  · simp only [Bool.not_eq_true] at hf
    rw [insertF_not_fits hf] at h
    simp at h

theorem preIns_fields (t : Quadtree) :
    (preIns t).position_x = t.position_x ∧
    (preIns t).position_y = t.position_y ∧
    (preIns t).width = t.width ∧ (preIns t).height = t.height ∧
    (preIns t).contents = t.contents := by
  cases t with
  | node px py w h dv ne nw se sw cs =>
    cases dv <;> simp [preIns, Quadtree.subdivide]

theorem insertF_bounds {n : Nat} {t t' : Quadtree} {o : Obj} {r : RustRes}
    (h : insertF n t o = Option.some (t', r)) :
    t'.position_x = t.position_x ∧ t'.position_y = t.position_y ∧
    t'.width = t.width ∧ t'.height = t.height := by
  cases n with
  | zero => simp [insertF] at h
  | succ n =>
    cases r with
    | error e =>
      rw [(insertF_error h).2.1]
      exact ⟨rfl, rfl, rfl, rfl⟩
    | ok u =>
      obtain ⟨e1, e2, e3, e4, -⟩ := preIns_fields t
      obtain ⟨-, hc⟩ := insertF_ok_cases h
      rcases hc with ⟨c, c', -, -, ht'⟩ | ⟨c, c', -, -, ht'⟩ |
          ⟨c, c', -, -, ht'⟩ | ⟨c, c', -, -, ht'⟩ | ht' <;>
        subst ht' <;> simp [e1, e2, e3, e4]

theorem insertF_ok_divided {n : Nat} {t t' : Quadtree} {o : Obj} {u : Unit}
    (h : insertF n t o = Option.some (t', Except.ok u)) :
    t'.divided = true := by
  cases n with
  | zero => simp [insertF] at h
  | succ n =>
    obtain ⟨-, hc⟩ := insertF_ok_cases h
    have hd := preIns_divided t
    rcases hc with ⟨c, c', -, -, ht'⟩ | ⟨c, c', -, -, ht'⟩ |
        ⟨c, c', -, -, ht'⟩ | ⟨c, c', -, -, ht'⟩ | ht' <;>
      subst ht' <;> simp [hd]

theorem tryChild_mono {n : Nat} {o : Obj} {q : OQuad} {s : OQuad × Bool}
    (ih : ∀ {t : Quadtree} {r : Quadtree × RustRes},
      insertF n t o = Option.some r → insertF (n + 1) t o = Option.some r)
    (h : tryChild (fun c => insertF n c o) q = Option.some s) :
    tryChild (fun c => insertF (n + 1) c o) q = Option.some s := by
  cases q with
  | none => simpa [tryChild] using h
  | some c =>
    simp only [tryChild] at h ⊢
    cases hin : insertF n c o with
    | none => rw [hin] at h; exact Option.noConfusion h
    | some cr =>
      rw [hin] at h
      rw [ih hin]
      exact h

theorem insertF_mono :
    ∀ {n : Nat} {t : Quadtree} {o : Obj} {r : Quadtree × RustRes},
      insertF n t o = Option.some r → insertF (n + 1) t o = Option.some r := by
  intro n
  induction n with
  | zero => intro t o r h; simp [insertF] at h
  | succ n ih =>
    intro t o r h
    by_cases hf : fitsQ o t = true
    · rw [insertF] at h
      rw [insertF]
      rw [if_pos hf] at h ⊢
      simp only [] at h ⊢
      cases h1 : tryChild (fun c => insertF n c o) (preIns t).northeast_quad with
      | none => rw [h1] at h; exact Option.noConfusion h
      | some s1 =>
        rw [h1] at h
        rw [tryChild_mono (fun {t r} => ih) h1]
        obtain ⟨q1, b1⟩ := s1
        cases b1 with
        | true => simp only [] at h ⊢; exact h
        | false =>
          simp only [] at h ⊢
          cases h2 : tryChild (fun c => insertF n c o)
              (((preIns t).withNE q1).northwest_quad) with
          | none => rw [h2] at h; exact Option.noConfusion h
          | some s2 =>
            rw [h2] at h
            rw [tryChild_mono (fun {t r} => ih) h2]
            obtain ⟨q2, b2⟩ := s2
            cases b2 with
            | true => simp only [] at h ⊢; exact h
            | false =>
              simp only [] at h ⊢
              cases h3 : tryChild (fun c => insertF n c o)
                  ((((preIns t).withNE q1).withNW q2).southeast_quad) with
              | none => rw [h3] at h; exact Option.noConfusion h
              | some s3 =>
                rw [h3] at h
                rw [tryChild_mono (fun {t r} => ih) h3]
                obtain ⟨q3, b3⟩ := s3
                cases b3 with
                | true => simp only [] at h ⊢; exact h
                | false =>
                  simp only [] at h ⊢
                  cases h4 : tryChild (fun c => insertF n c o)
                      (((((preIns t).withNE q1).withNW q2).withSE
                        q3).southwest_quad) with
                  | none => rw [h4] at h; exact Option.noConfusion h
                  | some s4 =>
                    rw [h4] at h
                    rw [tryChild_mono (fun {t r} => ih) h4]
                    obtain ⟨q4, b4⟩ := s4
                    cases b4 with
                    | true => simp only [] at h ⊢; exact h
                    | false => simp only [] at h ⊢; exact h
    · simp only [Bool.not_eq_true] at hf
      rw [insertF_not_fits hf] at h
      rw [insertF_not_fits hf]
      exact h

theorem insertF_mono_le {n m : Nat} {t : Quadtree} {o : Obj}
    {r : Quadtree × RustRes} (hnm : n ≤ m)
    (h : insertF n t o = Option.some r) : insertF m t o = Option.some r := by
  induction hnm with
  | refl => exact h
  | step _ ih => exact insertF_mono ih

theorem collect_subdivide (t : Quadtree) : collect t.subdivide = collect t := by
  cases t with
  | node px py w h dv ne nw se sw cs =>
    cases dv <;> simp [Quadtree.subdivide, collect, collectO, Quadtree.new]

theorem collect_preIns (t : Quadtree) : collect (preIns t) = collect t := by
  by_cases hd : t.divided = true
  · rw [preIns_of_divided hd]
  · simp only [Bool.not_eq_true] at hd
    simp [preIns, hd, collect_subdivide]

theorem allObjs_subdivide_sub {t : Quadtree} {x : Obj}
    (h : x ∈ allObjs t.subdivide) : x ∈ allObjs t := by
  cases t with
  | node px py w h dv ne nw se sw cs =>
    cases dv
    · simp [Quadtree.subdivide, allObjs, allObjsO, Quadtree.new] at h
      simp [allObjs, h]
    · simpa [Quadtree.subdivide] using h

theorem allObjs_preIns_sub {t : Quadtree} {x : Obj}
    (h : x ∈ allObjs (preIns t)) : x ∈ allObjs t := by
  by_cases hd : t.divided = true
  · rwa [preIns_of_divided hd] at h
  · simp only [Bool.not_eq_true] at hd
    simp only [preIns, hd, Bool.not_false, if_true] at h
    exact allObjs_subdivide_sub h

theorem collect_insertF_perm :
    ∀ {n : Nat} {t t' : Quadtree} {o : Obj} {u : Unit},
      insertF n t o = Option.some (t', Except.ok u) →
      (collect t').Perm (o :: collect t) := by
  intro n
  induction n with
  | zero => intro t t' o u h; simp [insertF] at h
  | succ n ih =>
    intro t t' o u h
    obtain ⟨hf, hc⟩ := insertF_ok_cases h
    have hcp : collect (preIns t) = collect t := collect_preIns t
    have hd : (preIns t).divided = true := preIns_divided t
    rcases hp : preIns t with ⟨a, b, ww, hh, dv, qne, qnw, qse, qsw, cs⟩
    rw [hp] at hc hcp hd
    simp only [divided_node] at hd
    subst hd
    rw [← hcp]
    rcases hc with ⟨c, c', hq, hins, ht'⟩ | ⟨c, c', hq, hins, ht'⟩ |
        ⟨c, c', hq, hins, ht'⟩ | ⟨c, c', hq, hins, ht'⟩ | ht'
    · simp only [northeast_quad_node] at hq
      subst hq
      subst ht'
      refine List.perm_iff_count.mpr fun x => ?_
      have hcnt := List.Perm.count_eq (ih hins) x
      simp only [Quadtree.withNE, collect, collectO, if_true,
        List.count_append, List.count_cons, List.count_nil] at hcnt ⊢
      omega
    · simp only [northwest_quad_node] at hq
      subst hq
      subst ht'
      refine List.perm_iff_count.mpr fun x => ?_
      have hcnt := List.Perm.count_eq (ih hins) x
      simp only [Quadtree.withNW, collect, collectO, if_true,
        List.count_append, List.count_cons, List.count_nil] at hcnt ⊢
      omega
    · simp only [southeast_quad_node] at hq
      subst hq
      subst ht'
      refine List.perm_iff_count.mpr fun x => ?_
      have hcnt := List.Perm.count_eq (ih hins) x
      simp only [Quadtree.withSE, collect, collectO, if_true,
        List.count_append, List.count_cons, List.count_nil] at hcnt ⊢
      omega
    · simp only [southwest_quad_node] at hq
      subst hq
      subst ht'
      refine List.perm_iff_count.mpr fun x => ?_
      have hcnt := List.Perm.count_eq (ih hins) x
      simp only [Quadtree.withSW, collect, collectO, if_true,
        List.count_append, List.count_cons, List.count_nil] at hcnt ⊢
      omega
    · subst ht'
      refine List.perm_iff_count.mpr fun x => ?_
      simp only [Quadtree.withContents, contents_node, collect, collectO,
        if_true, List.count_append, List.count_cons, List.count_nil]
      omega

theorem allObjs_node (px py w h : ℚ) (dv : Bool) (ne nw se sw : OQuad)
    (cs : List Obj) :
    allObjs (Quadtree.node px py w h dv ne nw se sw cs) =
      allObjsO ne ++ allObjsO nw ++ allObjsO se ++ allObjsO sw ++ cs := rfl

theorem fitsE_iff {o : Obj} {px py w h : ℚ} :
    fitsE o px py w h = true ↔
      o.north ≤ py ∧ o.east ≤ px + w ∧ o.south ≥ py - h ∧ o.west ≥ px := by
  simp [fitsE, Bool.and_eq_true, decide_eq_true_eq, and_assoc]

theorem containB_node_iff {px py w h : ℚ} {dv : Bool} {ne nw se sw : OQuad}
    {cs : List Obj} :
    containB (Quadtree.node px py w h dv ne nw se sw cs) = true ↔
      ((∀ x ∈ allObjsO ne, fitsE x px py w h = true) ∧
        (∀ x ∈ allObjsO nw, fitsE x px py w h = true) ∧
        (∀ x ∈ allObjsO se, fitsE x px py w h = true) ∧
        (∀ x ∈ allObjsO sw, fitsE x px py w h = true) ∧
        (∀ x ∈ cs, fitsE x px py w h = true) ∧
        containO ne = true ∧ containO nw = true ∧ containO se = true ∧
        containO sw = true) := by
  rw [containB]
  simp [List.all_eq_true, Bool.and_eq_true, and_assoc, allObjs_node]

theorem allObjs_insertF_mem :
    ∀ {n : Nat} {t t' : Quadtree} {o : Obj} {r : RustRes},
      insertF n t o = Option.some (t', r) →
      ∀ x ∈ allObjs t', x ∈ allObjs t ∨ x = o := by
  intro n
  induction n with
  | zero => intro t t' o r h; simp [insertF] at h
  | succ n ih =>
    intro t t' o r h x hx
    cases r with
    | error e =>
      rw [(insertF_error h).2.1] at hx
      exact Or.inl hx
    | ok u =>
      obtain ⟨hf, hc⟩ := insertF_ok_cases h
      rcases hp : preIns t with ⟨a, b, ww, hh, dv, qne, qnw, qse, qsw, cs⟩
      rw [hp] at hc
      have hsub : ∀ y : Obj,
          y ∈ allObjs (Quadtree.node a b ww hh dv qne qnw qse qsw cs) →
          y ∈ allObjs t := by
        intro y hy
        exact allObjs_preIns_sub (by rw [hp]; exact hy)
      rcases hc with ⟨c, c', hq, hins, ht'⟩ | ⟨c, c', hq, hins, ht'⟩ |
          ⟨c, c', hq, hins, ht'⟩ | ⟨c, c', hq, hins, ht'⟩ | ht'
      · simp only [northeast_quad_node] at hq
        subst hq ht'
        simp only [Quadtree.withNE, allObjs_node, allObjsO,
          List.mem_append] at hx
        rcases hx with ((((hx | hx) | hx) | hx) | hx)
        · rcases ih hins x hx with hm | hm
          · refine Or.inl (hsub x ?_)
            simp only [allObjs_node, allObjsO, List.mem_append]
            tauto
          · exact Or.inr hm
        · refine Or.inl (hsub x ?_)
          simp only [allObjs_node, allObjsO, List.mem_append]
          tauto
        · refine Or.inl (hsub x ?_)
          simp only [allObjs_node, allObjsO, List.mem_append]
          tauto
        · refine Or.inl (hsub x ?_)
          simp only [allObjs_node, allObjsO, List.mem_append]
          tauto
        · refine Or.inl (hsub x ?_)
          simp only [allObjs_node, allObjsO, List.mem_append]
          tauto
      · simp only [northwest_quad_node] at hq
        subst hq ht'
        simp only [Quadtree.withNW, allObjs_node, allObjsO,
          List.mem_append] at hx
        rcases hx with ((((hx | hx) | hx) | hx) | hx)
        · refine Or.inl (hsub x ?_)
          simp only [allObjs_node, allObjsO, List.mem_append]
          tauto
        · rcases ih hins x hx with hm | hm
          · refine Or.inl (hsub x ?_)
            simp only [allObjs_node, allObjsO, List.mem_append]
            tauto
          · exact Or.inr hm
        · refine Or.inl (hsub x ?_)
          simp only [allObjs_node, allObjsO, List.mem_append]
          tauto
        · refine Or.inl (hsub x ?_)
          simp only [allObjs_node, allObjsO, List.mem_append]
          tauto
        · refine Or.inl (hsub x ?_)
          simp only [allObjs_node, allObjsO, List.mem_append]
          tauto
      · simp only [southeast_quad_node] at hq
        subst hq ht'
        simp only [Quadtree.withSE, allObjs_node, allObjsO,
          List.mem_append] at hx
        rcases hx with ((((hx | hx) | hx) | hx) | hx)
        · refine Or.inl (hsub x ?_)
          simp only [allObjs_node, allObjsO, List.mem_append]
          tauto
        · refine Or.inl (hsub x ?_)
          simp only [allObjs_node, allObjsO, List.mem_append]
          tauto
        · rcases ih hins x hx with hm | hm
          · refine Or.inl (hsub x ?_)
            simp only [allObjs_node, allObjsO, List.mem_append]
            tauto
          · exact Or.inr hm
        · refine Or.inl (hsub x ?_)
          simp only [allObjs_node, allObjsO, List.mem_append]
          tauto
        · refine Or.inl (hsub x ?_)
          simp only [allObjs_node, allObjsO, List.mem_append]
          tauto
      · simp only [southwest_quad_node] at hq
        subst hq ht'
        simp only [Quadtree.withSW, allObjs_node, allObjsO,
          List.mem_append] at hx
        rcases hx with ((((hx | hx) | hx) | hx) | hx)
        · refine Or.inl (hsub x ?_)
          simp only [allObjs_node, allObjsO, List.mem_append]
          tauto
        · refine Or.inl (hsub x ?_)
          simp only [allObjs_node, allObjsO, List.mem_append]
          tauto
        · refine Or.inl (hsub x ?_)
          simp only [allObjs_node, allObjsO, List.mem_append]
          tauto
        · rcases ih hins x hx with hm | hm
          · refine Or.inl (hsub x ?_)
            simp only [allObjs_node, allObjsO, List.mem_append]
            tauto
          · exact Or.inr hm
        · refine Or.inl (hsub x ?_)
          simp only [allObjs_node, allObjsO, List.mem_append]
          tauto
      · subst ht'
        simp only [Quadtree.withContents, contents_node, allObjs_node,
          allObjsO, List.mem_append, List.mem_singleton] at hx
        rcases hx with ((((hx | hx) | hx) | hx) | hx | hx)
        · refine Or.inl (hsub x ?_)
          simp only [allObjs_node, allObjsO, List.mem_append]
          tauto
        · refine Or.inl (hsub x ?_)
          simp only [allObjs_node, allObjsO, List.mem_append]
          tauto
        · refine Or.inl (hsub x ?_)
          simp only [allObjs_node, allObjsO, List.mem_append]
          tauto
        · refine Or.inl (hsub x ?_)
          simp only [allObjs_node, allObjsO, List.mem_append]
          tauto
        · refine Or.inl (hsub x ?_)
          simp only [allObjs_node, allObjsO, List.mem_append]
          tauto
        · exact Or.inr hx

theorem containB_new (px py w h : ℚ) :
    containB (Quadtree.new px py w h) = true := by
  simp [Quadtree.new, containB, containO, allObjs, allObjsO]

theorem containB_subdivide {t : Quadtree} (h : containB t = true) :
    containB t.subdivide = true := by
  cases t with
  | node px py w h dv ne nw se sw cs =>
    cases dv
    · rw [containB_node_iff] at h
      simp only [Quadtree.subdivide, Bool.not_false, if_true]
      rw [containB_node_iff]
      refine ⟨?_, ?_, ?_, ?_, h.2.2.2.2.1, ?_, ?_, ?_, ?_⟩ <;>
        simp [allObjsO, allObjs, Quadtree.new, containO, containB]
    · simpa [Quadtree.subdivide] using h

theorem containB_preIns {t : Quadtree} (h : containB t = true) :
    containB (preIns t) = true := by
  by_cases hd : t.divided = true
  · rwa [preIns_of_divided hd]
  · simp only [Bool.not_eq_true] at hd
    simp only [preIns, hd, Bool.not_false, if_true]
    exact containB_subdivide h

theorem containB_insertF :
    ∀ {n : Nat} {t t' : Quadtree} {o : Obj} {r : RustRes},
      containB t = true → insertF n t o = Option.some (t', r) →
      containB t' = true := by
  intro n
  induction n with
  | zero => intro t t' o r hct h; simp [insertF] at h
  | succ n ih =>
    intro t t' o r hct h
    cases r with
    | error e => rw [(insertF_error h).2.1]; exact hct
    | ok u =>
      obtain ⟨hf, hc⟩ := insertF_ok_cases h
      have hctp := containB_preIns hct
      obtain ⟨e1, e2, e3, e4, -⟩ := preIns_fields t
      rcases hp : preIns t with ⟨a, b, ww, hh, dv, qne, qnw, qse, qsw, cs⟩
      rw [hp] at hc hctp e1 e2 e3 e4
      simp only [position_x_node, position_y_node, width_node,
        height_node] at e1 e2 e3 e4
      have hfo : fitsE o a b ww hh = true := by
        rw [fitsQ] at hf
        rw [e1, e2, e3, e4]
        exact hf
      rw [containB_node_iff] at hctp
      obtain ⟨ha1, ha2, ha3, ha4, ha5, hc1, hc2, hc3, hc4⟩ := hctp
      rcases hc with ⟨c, c', hq, hins, ht'⟩ | ⟨c, c', hq, hins, ht'⟩ |
          ⟨c, c', hq, hins, ht'⟩ | ⟨c, c', hq, hins, ht'⟩ | ht'
      · simp only [northeast_quad_node] at hq
        subst hq ht'
        simp only [Quadtree.withNE]
        rw [containB_node_iff]
        refine ⟨?_, ha2, ha3, ha4, ha5, ?_, hc2, hc3, hc4⟩
        · intro x hx
          simp only [allObjsO] at hx
          rcases allObjs_insertF_mem hins x hx with hm | hm
          · exact ha1 x (by simpa [allObjsO] using hm)
          · rw [hm]; exact hfo
        · simp only [containO]
          exact ih (by simpa [containO] using hc1) hins
      · simp only [northwest_quad_node] at hq
        subst hq ht'
        simp only [Quadtree.withNW]
        rw [containB_node_iff]
        refine ⟨ha1, ?_, ha3, ha4, ha5, hc1, ?_, hc3, hc4⟩
        · intro x hx
          simp only [allObjsO] at hx
          rcases allObjs_insertF_mem hins x hx with hm | hm
          · exact ha2 x (by simpa [allObjsO] using hm)
          · rw [hm]; exact hfo
        · simp only [containO]
          exact ih (by simpa [containO] using hc2) hins
      · simp only [southeast_quad_node] at hq
        subst hq ht'
        simp only [Quadtree.withSE]
        rw [containB_node_iff]
        refine ⟨ha1, ha2, ?_, ha4, ha5, hc1, hc2, ?_, hc4⟩
        · intro x hx
          simp only [allObjsO] at hx
          rcases allObjs_insertF_mem hins x hx with hm | hm
          · exact ha3 x (by simpa [allObjsO] using hm)
          · rw [hm]; exact hfo
        · simp only [containO]
          exact ih (by simpa [containO] using hc3) hins
      · simp only [southwest_quad_node] at hq
        subst hq ht'
        simp only [Quadtree.withSW]
        rw [containB_node_iff]
        refine ⟨ha1, ha2, ha3, ?_, ha5, hc1, hc2, hc3, ?_⟩
        · intro x hx
          simp only [allObjsO] at hx
          rcases allObjs_insertF_mem hins x hx with hm | hm
          · exact ha4 x (by simpa [allObjsO] using hm)
          · rw [hm]; exact hfo
        · simp only [containO]
          exact ih (by simpa [containO] using hc4) hins
      · subst ht'
        simp only [Quadtree.withContents, contents_node]
        rw [containB_node_iff]
        refine ⟨ha1, ha2, ha3, ha4, ?_, hc1, hc2, hc3, hc4⟩
        intro x hx
        rcases List.mem_append.mp hx with hx | hx
        · exact ha5 x hx
        · rw [List.mem_singleton.mp hx]; exact hfo

theorem boxedB_node_iff {ax ay aw ah px py w h : ℚ} {dv : Bool}
    {ne nw se sw : OQuad} {cs : List Obj} :
    boxedB ax ay aw ah (Quadtree.node px py w h dv ne nw se sw cs) = true ↔
      (ax ≤ px ∧ px + w ≤ ax + aw ∧ py ≤ ay ∧ ay - ah ≤ py - h ∧
        0 ≤ w ∧ 0 ≤ h ∧
        boxedO ax ay aw ah ne = true ∧ boxedO ax ay aw ah nw = true ∧
        boxedO ax ay aw ah se = true ∧ boxedO ax ay aw ah sw = true) := by
  rw [boxedB]
  simp [Bool.and_eq_true, decide_eq_true_eq, and_assoc]

theorem boxedB_new {ax ay aw ah : ℚ} (hw : 0 ≤ aw) (hh : 0 ≤ ah) :
    boxedB ax ay aw ah (Quadtree.new ax ay aw ah) = true := by
  simp only [Quadtree.new]
  rw [boxedB_node_iff]
  refine ⟨le_refl _, le_refl _, le_refl _, le_refl _, hw, hh, rfl, rfl, rfl, rfl⟩

theorem boxedB_subdivide {ax ay aw ah : ℚ} {t : Quadtree}
    (h : boxedB ax ay aw ah t = true) :
    boxedB ax ay aw ah t.subdivide = true := by
  cases t with
  | node px py w hq dv ne nw se sw cs =>
    cases dv
    · rw [boxedB_node_iff] at h
      obtain ⟨h1, h2, h3, h4, h5, h6, -, -, -, -⟩ := h
      simp only [Quadtree.subdivide, Bool.not_false, if_true]
      rw [boxedB_node_iff]
      refine ⟨h1, h2, h3, h4, h5, h6, ?_, ?_, ?_, ?_⟩ <;>
        · simp only [boxedO, Quadtree.new]
          rw [boxedB_node_iff]
          refine ⟨by linarith, by linarith, by linarith, by linarith,
            by linarith, by linarith, rfl, rfl, rfl, rfl⟩
    · simpa [Quadtree.subdivide] using h

theorem boxedB_preIns {ax ay aw ah : ℚ} {t : Quadtree}
    (h : boxedB ax ay aw ah t = true) :
    boxedB ax ay aw ah (preIns t) = true := by
  by_cases hd : t.divided = true
  · rwa [preIns_of_divided hd]
  · simp only [Bool.not_eq_true] at hd
    simp only [preIns, hd, Bool.not_false, if_true]
    exact boxedB_subdivide h

theorem boxedB_insertF :
    ∀ {n : Nat} {ax ay aw ah : ℚ} {t t' : Quadtree} {o : Obj} {r : RustRes},
      boxedB ax ay aw ah t = true → insertF n t o = Option.some (t', r) →
      boxedB ax ay aw ah t' = true := by
  intro n
  induction n with
  | zero => intro ax ay aw ah t t' o r hb h; simp [insertF] at h
  | succ n ih =>
    intro ax ay aw ah t t' o r hb h
    cases r with
    | error e => rw [(insertF_error h).2.1]; exact hb
    | ok u =>
      obtain ⟨hf, hc⟩ := insertF_ok_cases h
      have hbp := boxedB_preIns hb
      rcases hp : preIns t with ⟨a, b, ww, hh, dv, qne, qnw, qse, qsw, cs⟩
      rw [hp] at hc hbp
      rw [boxedB_node_iff] at hbp
      obtain ⟨h1, h2, h3, h4, h5, h6, hb1, hb2, hb3, hb4⟩ := hbp
      rcases hc with ⟨c, c', hq, hins, ht'⟩ | ⟨c, c', hq, hins, ht'⟩ |
          ⟨c, c', hq, hins, ht'⟩ | ⟨c, c', hq, hins, ht'⟩ | ht'
      · simp only [northeast_quad_node] at hq
        subst hq ht'
        simp only [Quadtree.withNE]
        rw [boxedB_node_iff]
        refine ⟨h1, h2, h3, h4, h5, h6, ?_, hb2, hb3, hb4⟩
        simp only [boxedO]
        exact ih (by simpa [boxedO] using hb1) hins
      · simp only [northwest_quad_node] at hq
        subst hq ht'
        simp only [Quadtree.withNW]
        rw [boxedB_node_iff]
        refine ⟨h1, h2, h3, h4, h5, h6, hb1, ?_, hb3, hb4⟩
        simp only [boxedO]
        exact ih (by simpa [boxedO] using hb2) hins
      · simp only [southeast_quad_node] at hq
        subst hq ht'
        simp only [Quadtree.withSE]
        rw [boxedB_node_iff]
        refine ⟨h1, h2, h3, h4, h5, h6, hb1, hb2, ?_, hb4⟩
        simp only [boxedO]
        exact ih (by simpa [boxedO] using hb3) hins
      · simp only [southwest_quad_node] at hq
        subst hq ht'
        simp only [Quadtree.withSW]
        rw [boxedB_node_iff]
        refine ⟨h1, h2, h3, h4, h5, h6, hb1, hb2, hb3, ?_⟩
        simp only [boxedO]
        exact ih (by simpa [boxedO] using hb4) hins
      · subst ht'
        simp only [Quadtree.withContents]
        rw [boxedB_node_iff]
        exact ⟨h1, h2, h3, h4, h5, h6, hb1, hb2, hb3, hb4⟩

theorem childBoundsO_some_iff {c : Quadtree} {cx cy cw ch : ℚ} :
    childBoundsO (OQuad.some c) cx cy cw ch = true ↔
      (c.position_x = cx ∧ c.position_y = cy ∧ c.width = cw ∧
        c.height = ch) := by
  simp [childBoundsO, Bool.and_eq_true, decide_eq_true_eq, and_assoc]

theorem quadInv_node_iff {px py w h : ℚ} {dv : Bool} {ne nw se sw : OQuad}
    {cs : List Obj} :
    quadInv (Quadtree.node px py w h dv ne nw se sw cs) = true ↔
      ((dv = (isSomeO ne && isSomeO nw && isSomeO se && isSomeO sw)) ∧
        childBoundsO ne (px + w / 2) py (w / 2) (h / 2) = true ∧
        childBoundsO nw px py (w / 2) (h / 2) = true ∧
        childBoundsO se (px + w / 2) (py - h / 2) (w / 2) (h / 2) = true ∧
        childBoundsO sw px (py - h / 2) (w / 2) (h / 2) = true ∧
        quadInvO ne = true ∧ quadInvO nw = true ∧ quadInvO se = true ∧
        quadInvO sw = true) := by
  rw [quadInv]
  simp [Bool.and_eq_true, and_assoc, beq_iff_eq]

theorem quadInv_new (px py w h : ℚ) :
    quadInv (Quadtree.new px py w h) = true := by
  simp only [Quadtree.new]
  rw [quadInv_node_iff]
  exact ⟨rfl, rfl, rfl, rfl, rfl, rfl, rfl, rfl, rfl⟩

theorem quadInv_subdivide {t : Quadtree} (h : quadInv t = true) :
    quadInv t.subdivide = true := by
  cases t with
  | node px py w hq dv ne nw se sw cs =>
    cases dv
    · simp only [Quadtree.subdivide, Bool.not_false, if_true]
      rw [quadInv_node_iff]
      refine ⟨rfl, ?_, ?_, ?_, ?_, ?_, ?_, ?_, ?_⟩ <;>
        simp [Quadtree.new, childBoundsO, quadInvO, quadInv, isSomeO]
    · simpa [Quadtree.subdivide] using h

theorem quadInv_preIns {t : Quadtree} (h : quadInv t = true) :
    quadInv (preIns t) = true := by
  by_cases hd : t.divided = true
  · rwa [preIns_of_divided hd]
  · simp only [Bool.not_eq_true] at hd
    simp only [preIns, hd, Bool.not_false, if_true]
    exact quadInv_subdivide h

theorem quadInv_insertF :
    ∀ {n : Nat} {t t' : Quadtree} {o : Obj} {r : RustRes},
      quadInv t = true → insertF n t o = Option.some (t', r) →
      quadInv t' = true := by
  intro n
  induction n with
  | zero => intro t t' o r hqi h; simp [insertF] at h
  | succ n ih =>
    intro t t' o r hqi h
    cases r with
    | error e => rw [(insertF_error h).2.1]; exact hqi
    | ok u =>
      obtain ⟨hf, hc⟩ := insertF_ok_cases h
      have hqp := quadInv_preIns hqi
      rcases hp : preIns t with ⟨a, b, ww, hh, dv, qne, qnw, qse, qsw, cs⟩
      rw [hp] at hc hqp
      rw [quadInv_node_iff] at hqp
      obtain ⟨h0, hcb1, hcb2, hcb3, hcb4, hq1, hq2, hq3, hq4⟩ := hqp
      rcases hc with ⟨c, c', hq, hins, ht'⟩ | ⟨c, c', hq, hins, ht'⟩ |
          ⟨c, c', hq, hins, ht'⟩ | ⟨c, c', hq, hins, ht'⟩ | ht'
      · simp only [northeast_quad_node] at hq
        subst hq ht'
        simp only [Quadtree.withNE]
        rw [quadInv_node_iff]
        obtain ⟨hbx, hby, hbw, hbh⟩ := insertF_bounds hins
        rw [childBoundsO_some_iff] at hcb1
        refine ⟨by simpa [isSomeO] using h0, ?_, hcb2, hcb3, hcb4, ?_, hq2, hq3, hq4⟩
        · rw [childBoundsO_some_iff]
          exact ⟨hbx.trans hcb1.1, hby.trans hcb1.2.1,
            hbw.trans hcb1.2.2.1, hbh.trans hcb1.2.2.2⟩
        · simp only [quadInvO]
          exact ih (by simpa [quadInvO] using hq1) hins
      · simp only [northwest_quad_node] at hq
        subst hq ht'
        simp only [Quadtree.withNW]
        rw [quadInv_node_iff]
        obtain ⟨hbx, hby, hbw, hbh⟩ := insertF_bounds hins
        rw [childBoundsO_some_iff] at hcb2
        refine ⟨by simpa [isSomeO] using h0, hcb1, ?_, hcb3, hcb4, hq1, ?_, hq3, hq4⟩
        · rw [childBoundsO_some_iff]
          exact ⟨hbx.trans hcb2.1, hby.trans hcb2.2.1,
            hbw.trans hcb2.2.2.1, hbh.trans hcb2.2.2.2⟩
        · simp only [quadInvO]
          exact ih (by simpa [quadInvO] using hq2) hins
      · simp only [southeast_quad_node] at hq
        subst hq ht'
        simp only [Quadtree.withSE]
        rw [quadInv_node_iff]
        obtain ⟨hbx, hby, hbw, hbh⟩ := insertF_bounds hins
        rw [childBoundsO_some_iff] at hcb3
        refine ⟨by simpa [isSomeO] using h0, hcb1, hcb2, ?_, hcb4, hq1, hq2, ?_, hq4⟩
        · rw [childBoundsO_some_iff]
          exact ⟨hbx.trans hcb3.1, hby.trans hcb3.2.1,
            hbw.trans hcb3.2.2.1, hbh.trans hcb3.2.2.2⟩
        · simp only [quadInvO]
          exact ih (by simpa [quadInvO] using hq3) hins
      · simp only [southwest_quad_node] at hq
        subst hq ht'
        simp only [Quadtree.withSW]
        rw [quadInv_node_iff]
        obtain ⟨hbx, hby, hbw, hbh⟩ := insertF_bounds hins
        rw [childBoundsO_some_iff] at hcb4
        refine ⟨by simpa [isSomeO] using h0, hcb1, hcb2, hcb3, ?_, hq1, hq2, hq3, ?_⟩
        · rw [childBoundsO_some_iff]
          exact ⟨hbx.trans hcb4.1, hby.trans hcb4.2.1,
            hbw.trans hcb4.2.2.1, hbh.trans hcb4.2.2.2⟩
        · simp only [quadInvO]
          exact ih (by simpa [quadInvO] using hq4) hins
      · subst ht'
        simp only [Quadtree.withContents]
        rw [quadInv_node_iff]
        exact ⟨h0, hcb1, hcb2, hcb3, hcb4, hq1, hq2, hq3, hq4⟩

theorem quadPair_ind (P : Quadtree → Prop) (Q : OQuad → Prop)
    (hnode : ∀ px py w h : ℚ, ∀ dv : Bool, ∀ ne nw se sw : OQuad,
      ∀ cs : List Obj, Q ne → Q nw → Q se → Q sw →
      P (Quadtree.node px py w h dv ne nw se sw cs))
    (hnone : Q OQuad.none) (hsome : ∀ t, P t → Q (OQuad.some t)) :
    (∀ t, P t) ∧ (∀ c, Q c) :=
  ⟨fun t => @Quadtree.rec P Q hnode hnone hsome t,
   fun c => @OQuad.rec P Q hnode hnone hsome c⟩

theorem strictDisjoint_node (r : Obj) (px py w h : ℚ) (dv : Bool)
    (ne nw se sw : OQuad) (cs : List Obj) :
    strictDisjoint r (Quadtree.node px py w h dv ne nw se sw cs) =
      (decide (r.north < py - h) || decide (r.east < px)
        || decide (r.south > py) || decide (r.west > px + w)) := rfl

theorem getRect_disjoint {t : Quadtree} {r : Obj} {vec : List Obj}
    (h : strictDisjoint r t = true) :
    getRect t r vec = (vec, Except.error noOverlapMsg) := by
  cases t with
  | node px py w hq dv ne nw se sw cs =>
    rw [strictDisjoint_node] at h
    rw [getRect]
    simp [h]

theorem getRect_overlap {t : Quadtree} {r : Obj} {vec : List Obj}
    (h : strictDisjoint r t = false) :
    (getRect t r vec).snd = Except.ok () ∧
      ∃ pre, (getRect t r vec).fst = pre ++ t.contents := by
  cases t with
  | node px py w hq dv ne nw se sw cs =>
    rw [strictDisjoint_node] at h
    rw [getRect]
    simp only [h, Bool.not_false, if_true, contents_node]
    exact ⟨trivial, _, rfl⟩

theorem getRect_frame :
    (∀ t : Quadtree, ∀ r : Obj, ∀ v1 v2 : List Obj,
      (getRect t r (v1 ++ v2)).fst = v1 ++ (getRect t r v2).fst ∧
      (getRect t r (v1 ++ v2)).snd = (getRect t r v2).snd) ∧
    (∀ c : OQuad, ∀ r : Obj, ∀ v1 v2 : List Obj,
      getRectO c r (v1 ++ v2) = v1 ++ getRectO c r v2) := by
  refine quadPair_ind
    (fun t => ∀ r v1 v2, (getRect t r (v1 ++ v2)).fst = v1 ++ (getRect t r v2).fst ∧
      (getRect t r (v1 ++ v2)).snd = (getRect t r v2).snd)
    (fun c => ∀ r v1 v2, getRectO c r (v1 ++ v2) = v1 ++ getRectO c r v2)
    ?_ ?_ ?_
  · intro px py w h dv ne nw se sw cs hne hnw hse hsw r v1 v2
    rw [getRect, getRect]
    by_cases hc : (decide (r.north < py - h) || decide (r.east < px)
        || decide (r.south > py) || decide (r.west > px + w)) = true
    · simp [hc]
    · simp only [Bool.not_eq_true] at hc
      simp only [hc, Bool.not_false, if_true]
      cases dv
      · simp
      · simp only [if_true]
        constructor
        · simp only [hne, hnw, hse, hsw, List.append_assoc]
        · trivial
  · intro r v1 v2
    simp [getRectO]
  · intro t ih r v1 v2
    simp only [getRectO]
    exact (ih r v1 v2).1

theorem fullProbe_fields (ax ay aw ah : ℚ) :
    (fullProbe ax ay aw ah).north = ay ∧ (fullProbe ax ay aw ah).east = ax + aw
      ∧ (fullProbe ax ay aw ah).south = ay - ah
      ∧ (fullProbe ax ay aw ah).west = ax := ⟨rfl, rfl, rfl, rfl⟩

theorem getRect_full {ax ay aw ah : ℚ} :
    (∀ t : Quadtree, boxedB ax ay aw ah t = true → ∀ vec : List Obj,
      getRect t (fullProbe ax ay aw ah) vec = (vec ++ collect t, Except.ok ())) ∧
    (∀ c : OQuad, boxedO ax ay aw ah c = true → ∀ vec : List Obj,
      getRectO c (fullProbe ax ay aw ah) vec = vec ++ collectO c) := by
  refine quadPair_ind
    (fun t => boxedB ax ay aw ah t = true → ∀ vec,
      getRect t (fullProbe ax ay aw ah) vec = (vec ++ collect t, Except.ok ()))
    (fun c => boxedO ax ay aw ah c = true → ∀ vec,
      getRectO c (fullProbe ax ay aw ah) vec = vec ++ collectO c)
    ?_ ?_ ?_
  · intro px py w h dv ne nw se sw cs hne hnw hse hsw hb vec
    rw [boxedB_node_iff] at hb
    obtain ⟨h1, h2, h3, h4, h5, h6, hb1, hb2, hb3, hb4⟩ := hb
    have hcond : (decide ((fullProbe ax ay aw ah).north < py - h)
        || decide ((fullProbe ax ay aw ah).east < px)
        || decide ((fullProbe ax ay aw ah).south > py)
        || decide ((fullProbe ax ay aw ah).west > px + w)) = false := by
      simp only [fullProbe, Bool.or_eq_false_iff, decide_eq_false_iff_not,
        not_lt, gt_iff_lt]
      refine ⟨⟨⟨by linarith, by linarith⟩, by linarith⟩, by linarith⟩
    rw [getRect]
    simp only [hcond, Bool.not_false, if_true]
    cases dv
    · simp [collect]
    · simp only [if_true, hne hb1, hnw hb2, hse hb3, hsw hb4, collect,
        collectO, List.append_assoc]
  · intro hb vec
    simp [getRectO, collectO]
  · intro t ih hb vec
    simp only [boxedO] at hb
    simp only [getRectO, collectO, ih hb vec]

theorem insertF_chain1 {n : Nat} {t : Quadtree} {o : Obj} {qne c' : Quadtree}
    (hf : fitsQ o t = true)
    (hne : (preIns t).northeast_quad = OQuad.some qne)
    (h1 : insertF n qne o = Option.some (c', Except.ok ())) :
    insertF (n + 1) t o =
      Option.some ((preIns t).withNE (OQuad.some c'), Except.ok ()) := by
  rw [insertF, if_pos hf]
  simp only []
  rw [hne]
  simp only [tryChild, h1]

theorem insertF_chain2 {n : Nat} {t : Quadtree} {o : Obj}
    {qne qnw c' : Quadtree} {e1 : String} (hf : fitsQ o t = true)
    (hne : (preIns t).northeast_quad = OQuad.some qne)
    (h1 : insertF n qne o = Option.some (qne, Except.error e1))
    (hnw : (preIns t).northwest_quad = OQuad.some qnw)
    (h2 : insertF n qnw o = Option.some (c', Except.ok ())) :
    insertF (n + 1) t o =
      Option.some ((preIns t).withNW (OQuad.some c'), Except.ok ()) := by
  rw [insertF, if_pos hf]
  simp only []
  rw [hne]
  simp only [tryChild, h1]
  have hrw : (preIns t).withNE (OQuad.some qne) = preIns t := by
    rw [← hne]; exact withNE_self _
  rw [hrw, hnw]
  simp only [tryChild, h2]

theorem insertF_chain3 {n : Nat} {t : Quadtree} {o : Obj}
    {qne qnw qse c' : Quadtree} {e1 e2 : String} (hf : fitsQ o t = true)
    (hne : (preIns t).northeast_quad = OQuad.some qne)
    (h1 : insertF n qne o = Option.some (qne, Except.error e1))
    (hnw : (preIns t).northwest_quad = OQuad.some qnw)
    (h2 : insertF n qnw o = Option.some (qnw, Except.error e2))
    (hse : (preIns t).southeast_quad = OQuad.some qse)
    (h3 : insertF n qse o = Option.some (c', Except.ok ())) :
    insertF (n + 1) t o =
      Option.some ((preIns t).withSE (OQuad.some c'), Except.ok ()) := by
  rw [insertF, if_pos hf]
  simp only []
  rw [hne]
  simp only [tryChild, h1]
  have hrw : (preIns t).withNE (OQuad.some qne) = preIns t := by
    rw [← hne]; exact withNE_self _
  rw [hrw, hnw]
  simp only [tryChild, h2]
  have hrw2 : (preIns t).withNW (OQuad.some qnw) = preIns t := by
    rw [← hnw]; exact withNW_self _
  rw [hrw2, hse]
  simp only [tryChild, h3]

theorem insertF_chain4 {n : Nat} {t : Quadtree} {o : Obj}
    {qne qnw qse qsw c' : Quadtree} {e1 e2 e3 : String}
    (hf : fitsQ o t = true)
    (hne : (preIns t).northeast_quad = OQuad.some qne)
    (h1 : insertF n qne o = Option.some (qne, Except.error e1))
    (hnw : (preIns t).northwest_quad = OQuad.some qnw)
    (h2 : insertF n qnw o = Option.some (qnw, Except.error e2))
    (hse : (preIns t).southeast_quad = OQuad.some qse)
    (h3 : insertF n qse o = Option.some (qse, Except.error e3))
    (hsw : (preIns t).southwest_quad = OQuad.some qsw)
    (h4 : insertF n qsw o = Option.some (c', Except.ok ())) :
    insertF (n + 1) t o =
      Option.some ((preIns t).withSW (OQuad.some c'), Except.ok ()) := by
  rw [insertF, if_pos hf]
  simp only []
  rw [hne]
  simp only [tryChild, h1]
  have hrw : (preIns t).withNE (OQuad.some qne) = preIns t := by
    rw [← hne]; exact withNE_self _
  rw [hrw, hnw]
  simp only [tryChild, h2]
  have hrw2 : (preIns t).withNW (OQuad.some qnw) = preIns t := by
    rw [← hnw]; exact withNW_self _
  rw [hrw2, hse]
  simp only [tryChild, h3]
  have hrw3 : (preIns t).withSE (OQuad.some qse) = preIns t := by
    rw [← hse]; exact withSE_self _
  rw [hrw3, hsw]
  simp only [tryChild, h4]

theorem insertF_chain5 {n : Nat} {t : Quadtree} {o : Obj}
    {qne qnw qse qsw : Quadtree} {e1 e2 e3 e4 : String}
    (hf : fitsQ o t = true)
    (hne : (preIns t).northeast_quad = OQuad.some qne)
    (h1 : insertF n qne o = Option.some (qne, Except.error e1))
    (hnw : (preIns t).northwest_quad = OQuad.some qnw)
    (h2 : insertF n qnw o = Option.some (qnw, Except.error e2))
    (hse : (preIns t).southeast_quad = OQuad.some qse)
    (h3 : insertF n qse o = Option.some (qse, Except.error e3))
    (hsw : (preIns t).southwest_quad = OQuad.some qsw)
    (h4 : insertF n qsw o = Option.some (qsw, Except.error e4)) :
    insertF (n + 1) t o =
      Option.some ((preIns t).withContents ((preIns t).contents ++ [o]),
        Except.ok ()) := by
  rw [insertF, if_pos hf]
  simp only []
  rw [hne]
  simp only [tryChild, h1]
  have hrw : (preIns t).withNE (OQuad.some qne) = preIns t := by
    rw [← hne]; exact withNE_self _
  rw [hrw, hnw]
  simp only [tryChild, h2]
  have hrw2 : (preIns t).withNW (OQuad.some qnw) = preIns t := by
    rw [← hnw]; exact withNW_self _
  rw [hrw2, hse]
  simp only [tryChild, h3]
  have hrw3 : (preIns t).withSE (OQuad.some qse) = preIns t := by
    rw [← hse]; exact withSE_self _
  rw [hrw3, hsw]
  simp only [tryChild, h4]
  have hrw4 : (preIns t).withSW (OQuad.some qsw) = preIns t := by
    rw [← hsw]; exact withSW_self _
  rw [hrw4]

theorem collect_new (px py w h : ℚ) : collect (Quadtree.new px py w h) = [] := by
  simp [Quadtree.new, collect]

theorem buildL_invariants {n : Nat} {ax ay aw ah : ℚ} :
    ∀ {os : List Obj} {t t' : Quadtree},
      boxedB ax ay aw ah t = true → buildL n t os = Option.some t' →
      boxedB ax ay aw ah t' = true ∧ (collect t').Perm (os ++ collect t) := by
  intro os
  induction os with
  | nil =>
    intro t t' hb h
    simp only [buildL, Option.some.injEq] at h
    subst h
    exact ⟨hb, by simp⟩
  | cons o os ih =>
    intro t t' hb h
    simp only [buildL] at h
    split at h
    · rename_i t'' u heq
      obtain ⟨hb', hperm⟩ := ih (boxedB_insertF hb heq) h
      refine ⟨hb', ?_⟩
      rw [List.cons_append]
      exact hperm.trans
        ((List.Perm.append_left os (collect_insertF_perm heq)).trans
          List.perm_middle)
    · exact Option.noConfusion h

theorem fitsQ_size {o : Obj} {t : Quadtree} (hf : fitsQ o t = true) :
    o.east - o.west ≤ t.width ∧ o.north - o.south ≤ t.height := by
  rw [fitsQ, fitsE_iff] at hf
  obtain ⟨h1, h2, h3, h4⟩ := hf
  constructor <;> linarith

theorem quadInv_children {a b ww hh : ℚ} {qne qnw qse qsw : OQuad}
    {cs : List Obj}
    (h : quadInv (Quadtree.node a b ww hh true qne qnw qse qsw cs) = true) :
    ∃ c1 c2 c3 c4 : Quadtree,
      qne = OQuad.some c1 ∧ qnw = OQuad.some c2 ∧ qse = OQuad.some c3 ∧
      qsw = OQuad.some c4 ∧
      (c1.width = ww / 2 ∧ c1.height = hh / 2 ∧ quadInv c1 = true) ∧
      (c2.width = ww / 2 ∧ c2.height = hh / 2 ∧ quadInv c2 = true) ∧
      (c3.width = ww / 2 ∧ c3.height = hh / 2 ∧ quadInv c3 = true) ∧
      (c4.width = ww / 2 ∧ c4.height = hh / 2 ∧ quadInv c4 = true) := by
  rw [quadInv_node_iff] at h
  obtain ⟨h0, hcb1, hcb2, hcb3, hcb4, hq1, hq2, hq3, hq4⟩ := h
  cases qne with
  | none => simp [isSomeO] at h0
  | some c1 =>
    cases qnw with
    | none => simp [isSomeO] at h0
    | some c2 =>
      cases qse with
      | none => simp [isSomeO] at h0
      | some c3 =>
        cases qsw with
        | none => simp [isSomeO] at h0
        | some c4 =>
          rw [childBoundsO_some_iff] at hcb1 hcb2 hcb3 hcb4
          simp only [quadInvO] at hq1 hq2 hq3 hq4
          exact ⟨c1, c2, c3, c4, rfl, rfl, rfl, rfl,
            ⟨hcb1.2.2.1, hcb1.2.2.2, hq1⟩, ⟨hcb2.2.2.1, hcb2.2.2.2, hq2⟩,
            ⟨hcb3.2.2.1, hcb3.2.2.2, hq3⟩, ⟨hcb4.2.2.1, hcb4.2.2.2, hq4⟩⟩

theorem insertF_total_aux :
    ∀ k : Nat, ∀ t : Quadtree, ∀ o : Obj, quadInv t = true →
      ((0 < o.east - o.west ∧ t.width < 2 ^ k * (o.east - o.west)) ∨
       (0 < o.north - o.south ∧ t.height < 2 ^ k * (o.north - o.south))) →
      ∃ r, insertF (k + 1) t o = Option.some r := by
  intro k
  induction k with
  | zero =>
    intro t o hqi hs
    by_cases hf : fitsQ o t = true
    · exfalso
      obtain ⟨hew, hns⟩ := fitsQ_size hf
      rcases hs with ⟨hpos, hlt⟩ | ⟨hpos, hlt⟩ <;>
        rw [pow_zero, one_mul] at hlt <;> linarith
    · simp only [Bool.not_eq_true] at hf
      exact ⟨_, insertF_not_fits hf⟩
  | succ k ih =>
    intro t o hqi hs
    by_cases hf : fitsQ o t = true
    · have hqp := quadInv_preIns hqi
      have hdv := preIns_divided t
      obtain ⟨ef1, ef2, ef3, ef4, -⟩ := preIns_fields t
      rcases hp : preIns t with ⟨a, b, ww, hh, dv, qne, qnw, qse, qsw, cs⟩
      rw [hp] at hqp hdv ef1 ef2 ef3 ef4
      simp only [divided_node] at hdv
      subst hdv
      simp only [width_node, height_node, position_x_node,
        position_y_node] at ef1 ef2 ef3 ef4
      obtain ⟨c1, c2, c3, c4, he1, he2, he3, he4, hd1, hd2, hd3, hd4⟩ :=
        quadInv_children hqp
      subst he1 he2 he3 he4
      have hsize : ∀ c : Quadtree, c.width = ww / 2 → c.height = hh / 2 →
          ((0 < o.east - o.west ∧ c.width < 2 ^ k * (o.east - o.west)) ∨
           (0 < o.north - o.south ∧
             c.height < 2 ^ k * (o.north - o.south))) := by
        intro c hcw hch
        rcases hs with ⟨hpos, hlt⟩ | ⟨hpos, hlt⟩
        · refine Or.inl ⟨hpos, ?_⟩
          rw [hcw]
          rw [pow_succ] at hlt
          rw [← ef3] at hlt
          linarith
        · refine Or.inr ⟨hpos, ?_⟩
          rw [hch]
          rw [pow_succ] at hlt
          rw [← ef4] at hlt
          linarith
      have hne : (preIns t).northeast_quad = OQuad.some c1 := by rw [hp]; rfl
      have hnw : (preIns t).northwest_quad = OQuad.some c2 := by rw [hp]; rfl
      have hse : (preIns t).southeast_quad = OQuad.some c3 := by rw [hp]; rfl
      have hsw : (preIns t).southwest_quad = OQuad.some c4 := by rw [hp]; rfl
      obtain ⟨⟨c1', rr1⟩, h1⟩ := ih c1 o hd1.2.2 (hsize c1 hd1.1 hd1.2.1)
      cases rr1 with
      | ok u1 => cases u1; exact ⟨_, insertF_chain1 hf hne h1⟩
      | error e1 =>
        obtain ⟨-, hc1eq, -⟩ := insertF_error h1
        subst hc1eq
        obtain ⟨⟨c2', rr2⟩, h2⟩ := ih c2 o hd2.2.2 (hsize c2 hd2.1 hd2.2.1)
        cases rr2 with
        | ok u2 => cases u2; exact ⟨_, insertF_chain2 hf hne h1 hnw h2⟩
        | error e2 =>
          obtain ⟨-, hc2eq, -⟩ := insertF_error h2
          subst hc2eq
          obtain ⟨⟨c3', rr3⟩, h3⟩ := ih c3 o hd3.2.2 (hsize c3 hd3.1 hd3.2.1)
          cases rr3 with
          | ok u3 => cases u3; exact ⟨_, insertF_chain3 hf hne h1 hnw h2 hse h3⟩
          | error e3 =>
            obtain ⟨-, hc3eq, -⟩ := insertF_error h3
            subst hc3eq
            obtain ⟨⟨c4', rr4⟩, h4⟩ := ih c4 o hd4.2.2 (hsize c4 hd4.1 hd4.2.1)
            cases rr4 with
            | ok u4 =>
              cases u4
              exact ⟨_, insertF_chain4 hf hne h1 hnw h2 hse h3 hsw h4⟩
            | error e4 =>
              obtain ⟨-, hc4eq, -⟩ := insertF_error h4
              subst hc4eq
              exact ⟨_, insertF_chain5 hf hne h1 hnw h2 hse h3 hsw h4⟩
    · simp only [Bool.not_eq_true] at hf
      exact ⟨_, insertF_not_fits hf⟩

theorem insertF_corner_none :
    ∀ n : Nat, ∀ px py w h : ℚ, 0 < w → 0 < h →
      insertF n (Quadtree.new px py w h) (cornerObj px (py - h)) =
        Option.none := by
  intro n
  induction n using Nat.strong_induction_on with
  | _ n ihn =>
    intro px py w h hw hh
    cases n with
    | zero => simp [insertF]
    | succ m =>
      have hf : fitsQ (cornerObj px (py - h)) (Quadtree.new px py w h)
          = true := by
        rw [fitsQ]
        simp only [Quadtree.new, position_x_node, position_y_node,
          width_node, height_node]
        rw [fitsE_iff]
        refine ⟨by simp [cornerObj]; linarith, by simp [cornerObj]; linarith,
          by simp [cornerObj], by simp [cornerObj]⟩
      rw [insertF, if_pos hf]
      simp only []
      have hpre : preIns (Quadtree.new px py w h) = Quadtree.node px py w h
          true
          (OQuad.some (Quadtree.new (px + w / 2) py (w / 2) (h / 2)))
          (OQuad.some (Quadtree.new px py (w / 2) (h / 2)))
          (OQuad.some (Quadtree.new (px + w / 2) (py - h / 2) (w / 2) (h / 2)))
          (OQuad.some (Quadtree.new px (py - h / 2) (w / 2) (h / 2))) [] := by
        simp [preIns, Quadtree.new, Quadtree.subdivide]
      rw [hpre]
      cases m with
      | zero =>
        simp [tryChild, insertF]
      | succ m' =>
        have hfne : fitsQ (cornerObj px (py - h))
            (Quadtree.new (px + w / 2) py (w / 2) (h / 2)) = false := by
          rw [fitsQ]
          simp only [Quadtree.new, position_x_node, position_y_node,
            width_node, height_node]
          rw [Bool.eq_false_iff]
          rw [Ne, fitsE_iff]
          rintro ⟨-, -, -, hcontr⟩
          simp only [cornerObj] at hcontr
          linarith
        have hfnw : fitsQ (cornerObj px (py - h))
            (Quadtree.new px py (w / 2) (h / 2)) = false := by
          rw [fitsQ]
          simp only [Quadtree.new, position_x_node, position_y_node,
            width_node, height_node]
          rw [Bool.eq_false_iff]
          rw [Ne, fitsE_iff]
          rintro ⟨-, -, hcontr, -⟩
          simp only [cornerObj] at hcontr
          linarith
        have hfse : fitsQ (cornerObj px (py - h))
            (Quadtree.new (px + w / 2) (py - h / 2) (w / 2) (h / 2))
            = false := by
          rw [fitsQ]
          simp only [Quadtree.new, position_x_node, position_y_node,
            width_node, height_node]
          rw [Bool.eq_false_iff]
          rw [Ne, fitsE_iff]
          rintro ⟨-, -, -, hcontr⟩
          simp only [cornerObj] at hcontr
          linarith
        have hsw := ihn (m' + 1) (by omega) px (py - h / 2) (w / 2) (h / 2)
          (by linarith) (by linarith)
        rw [show py - h / 2 - h / 2 = py - h from by ring] at hsw
        simp only [northeast_quad_node, tryChild,
          insertF_not_fits hfne]
        simp only [northwest_quad_withNE, northwest_quad_node,
          insertF_not_fits hfnw]
        simp only [southeast_quad_withNW, southeast_quad_withNE,
          southeast_quad_node, insertF_not_fits hfse]
        simp only [southwest_quad_withSE, southwest_quad_withNW,
          southwest_quad_withNE, southwest_quad_node, hsw]

theorem insertF_total {t : Quadtree} {o : Obj} (hqi : quadInv t = true)
    (hsize : 0 < o.east - o.west ∨ 0 < o.north - o.south) :
    ∃ n r, insertF n t o = Option.some r := by
  rcases hsize with hpos | hpos
  · obtain ⟨k, hk⟩ := pow_unbounded_of_one_lt
      (t.width / (o.east - o.west)) (by norm_num : (1 : ℚ) < 2)
    have hb : t.width < 2 ^ k * (o.east - o.west) :=
      (div_lt_iff₀ hpos).mp hk
    obtain ⟨r, hr⟩ := insertF_total_aux k t o hqi (Or.inl ⟨hpos, hb⟩)
    exact ⟨k + 1, r, hr⟩
  · obtain ⟨k, hk⟩ := pow_unbounded_of_one_lt
      (t.height / (o.north - o.south)) (by norm_num : (1 : ℚ) < 2)
    have hb : t.height < 2 ^ k * (o.north - o.south) :=
      (div_lt_iff₀ hpos).mp hk
    obtain ⟨r, hr⟩ := insertF_total_aux k t o hqi (Or.inr ⟨hpos, hb⟩)
    exact ⟨k + 1, r, hr⟩

set_option maxHeartbeats 1000000 in
theorem demo_insertA_fuel2 :
    insertF 2 demoRoot demoA = Option.some (demoT1, Except.ok ()) := by
  norm_num [insertF, tryChild, preIns, fitsQ, fitsE, Quadtree.subdivide,
    Quadtree.new, demoRoot, demoA, demoT1, Quadtree.withNE, Quadtree.withNW,
    Quadtree.withSE, Quadtree.withSW, Quadtree.withContents]

theorem demo_insertA :
    insertF 10 demoRoot demoA = Option.some (demoT1, Except.ok ()) :=
  insertF_mono_le (by omega) demo_insertA_fuel2

set_option maxHeartbeats 1000000 in
theorem demo_fitsB : fitsQ demoB demoT1 = true := by
  norm_num [fitsQ, fitsE, demoB, demoT1]

/-- Claim C1: for every tree built from a fresh root with positive extents
by a sequence of successful inserts of distinct objects, querying with a
probe equal to the root bounds succeeds, counts every inserted object
exactly once, and appends exactly as many objects as there were successful
inserts. -/
theorem insert_query_roundtrip {n : Nat} {ax ay aw ah : ℚ} {os : List Obj}
    {t : Quadtree} (hw : 0 < aw) (hh : 0 < ah) (hnd : os.Nodup)
    (hb : buildL n (Quadtree.new ax ay aw ah) os = Option.some t) :
    (getRect t (fullProbe ax ay aw ah) []).snd = Except.ok () ∧
    (∀ o ∈ os, (getRect t (fullProbe ax ay aw ah) []).fst.count o = 1) ∧
    (getRect t (fullProbe ax ay aw ah) []).fst.length = os.length := by
  have hroot : boxedB ax ay aw ah (Quadtree.new ax ay aw ah) = true :=
    boxedB_new (le_of_lt hw) (le_of_lt hh)
  obtain ⟨hbt, hperm⟩ := buildL_invariants hroot hb
  rw [collect_new, List.append_nil] at hperm
  have hq := getRect_full.1 t hbt []
  refine ⟨by rw [hq], ?_, ?_⟩
  · intro o ho
    rw [hq]
    simp only [List.nil_append]
    rw [hperm.count_eq]
    exact List.count_eq_one_of_mem hnd ho
  · rw [hq]
    simp only [List.nil_append]
    exact hperm.length_eq

theorem insert_query_roundtrip_witness :
    (getRect demoT1 (fullProbe (-200) 200 400 400) []).snd = Except.ok () ∧
    (∀ o ∈ [demoA],
      (getRect demoT1 (fullProbe (-200) 200 400 400) []).fst.count o = 1) ∧
    (getRect demoT1 (fullProbe (-200) 200 400 400) []).fst.length
      = [demoA].length :=
  insert_query_roundtrip (by norm_num) (by norm_num) (by simp)
    (show buildL 2 demoRoot [demoA] = Option.some demoT1 from by
      simp only [buildL, demo_insertA_fuel2])

/-- Claim C2: for an object that passes a divided node's containment
check, insert tries the four children in the order northeast, northwest,
southeast, southwest; the first child that accepts the object (its own
containment check succeeding) receives it and insertion stops there, and
when no child's containment check succeeds the object is appended to the
node's own contents. -/
theorem insert_child_order (m : Nat) (t : Quadtree) (o : Obj)
    (qne qnw qse qsw : Quadtree) (hf : fitsQ o t = true)
    (hd : t.divided = true)
    (hne : t.northeast_quad = OQuad.some qne)
    (hnw : t.northwest_quad = OQuad.some qnw)
    (hse : t.southeast_quad = OQuad.some qse)
    (hsw : t.southwest_quad = OQuad.some qsw) :
    (∀ c', insertF (m + 1) qne o = Option.some (c', Except.ok ()) →
      insertF (m + 2) t o =
        Option.some (t.withNE (OQuad.some c'), Except.ok ())) ∧
    (∀ c', fitsQ o qne = false →
      insertF (m + 1) qnw o = Option.some (c', Except.ok ()) →
      insertF (m + 2) t o =
        Option.some (t.withNW (OQuad.some c'), Except.ok ())) ∧
    (∀ c', fitsQ o qne = false → fitsQ o qnw = false →
      insertF (m + 1) qse o = Option.some (c', Except.ok ()) →
      insertF (m + 2) t o =
        Option.some (t.withSE (OQuad.some c'), Except.ok ())) ∧
    (∀ c', fitsQ o qne = false → fitsQ o qnw = false →
      fitsQ o qse = false →
      insertF (m + 1) qsw o = Option.some (c', Except.ok ()) →
      insertF (m + 2) t o =
        Option.some (t.withSW (OQuad.some c'), Except.ok ())) ∧
    (fitsQ o qne = false → fitsQ o qnw = false → fitsQ o qse = false →
      fitsQ o qsw = false →
      insertF (m + 2) t o =
        Option.some (t.withContents (t.contents ++ [o]), Except.ok ())) := by
  have hpt : preIns t = t := preIns_of_divided hd
  have hne' : (preIns t).northeast_quad = OQuad.some qne := by rw [hpt, hne]
  have hnw' : (preIns t).northwest_quad = OQuad.some qnw := by rw [hpt, hnw]
  have hse' : (preIns t).southeast_quad = OQuad.some qse := by rw [hpt, hse]
  have hsw' : (preIns t).southwest_quad = OQuad.some qsw := by rw [hpt, hsw]
  refine ⟨?_, ?_, ?_, ?_, ?_⟩
  · intro c' h1
    have := insertF_chain1 hf hne' h1
    rwa [hpt] at this
  · intro c' hf1 h2
    have := insertF_chain2 hf hne' (insertF_not_fits hf1) hnw' h2
    rwa [hpt] at this
  · intro c' hf1 hf2 h3
    have := insertF_chain3 hf hne' (insertF_not_fits hf1) hnw'
      (insertF_not_fits hf2) hse' h3
    rwa [hpt] at this
  · intro c' hf1 hf2 hf3 h4
    have := insertF_chain4 hf hne' (insertF_not_fits hf1) hnw'
      (insertF_not_fits hf2) hse' (insertF_not_fits hf3) hsw' h4
    rwa [hpt] at this
  · intro hf1 hf2 hf3 hf4
    have := insertF_chain5 hf hne' (@insertF_not_fits m qne o hf1) hnw'
      (@insertF_not_fits m qnw o hf2) hse' (@insertF_not_fits m qse o hf3)
      hsw' (@insertF_not_fits m qsw o hf4)
    rwa [hpt] at this

theorem insert_child_order_witness :
    insertF 2 demoT0 demoO =
      Option.some (demoT0.withContents (demoT0.contents ++ [demoO]),
        Except.ok ()) :=
  (insert_child_order 0 demoT0 demoO (Quadtree.new 2 4 2 2)
      (Quadtree.new 0 4 2 2) (Quadtree.new 2 2 2 2) (Quadtree.new 0 2 2 2)
      (by norm_num [fitsQ, fitsE, demoT0, demoO]) rfl rfl rfl rfl rfl).2.2.2.2
    (by norm_num [fitsQ, fitsE, Quadtree.new, demoO])
    (by norm_num [fitsQ, fitsE, Quadtree.new, demoO])
    (by norm_num [fitsQ, fitsE, Quadtree.new, demoO])
    (by norm_num [fitsQ, fitsE, Quadtree.new, demoO])

/-- Claim C3: insert returns an error exactly when the object fails the
containment check against the node's bounds; that is the only failure
mode, and a failing insert leaves the tree completely unchanged. -/
theorem insert_error_iff (n : Nat) (t : Quadtree) (o : Obj) :
    (∀ t' e, insertF n t o = Option.some (t', Except.error e) →
      fitsQ o t = false ∧ t' = t ∧ e = unfitMsg) ∧
    (fitsQ o t = false →
      insertF (n + 1) t o = Option.some (t, Except.error unfitMsg)) ∧
    (fitsQ o t = true → ∀ t' r, insertF n t o = Option.some (t', r) →
      r = Except.ok ()) :=
  ⟨fun _ _ h => insertF_error h, fun hf => insertF_not_fits hf,
   fun hf _ _ h => insertF_fits_ok hf h⟩

theorem insert_error_iff_witness :
    insertF 1 demoRoot demoOut =
      Option.some (demoRoot, Except.error unfitMsg) :=
  (insert_error_iff 0 demoRoot demoOut).2.1
    (by norm_num [fitsQ, fitsE, demoRoot, demoOut, Quadtree.new])

/-- Claim C4: a query fails with the "no overlap" error exactly when the
probe is strictly disjoint from the node's bounds on some side (touching
counts as overlapping), and in the error case the output vector is
returned untouched. -/
theorem query_error_iff_disjoint (t : Quadtree) (r : Obj) (vec : List Obj) :
    ((getRect t r vec).snd = Except.error noOverlapMsg ↔
      strictDisjoint r t = true) ∧
    (strictDisjoint r t = true →
      getRect t r vec = (vec, Except.error noOverlapMsg)) := by
  refine ⟨⟨?_, ?_⟩, ?_⟩
  · intro h
    by_cases hd : strictDisjoint r t = true
    · exact hd
    · simp only [Bool.not_eq_true] at hd
      rw [(getRect_overlap hd).1] at h
      exact Except.noConfusion h
  · intro hd
    rw [getRect_disjoint hd]
  · intro hd
    exact getRect_disjoint hd

theorem query_error_iff_disjoint_witness :
    getRect demoRoot demoFar [] = ([], Except.error noOverlapMsg) :=
  (query_error_iff_disjoint demoRoot demoFar []).2
    (by norm_num [strictDisjoint, demoRoot, demoFar, Quadtree.new])

/-- Claim C5: when the overlap check passes at a node the query returns
success whatever the recursive child queries do (a child's "no overlap"
failure is absorbed), and the node's own contents are appended to the
output wholesale, with no per-object overlap filter. -/
theorem query_overlap_appends (t : Quadtree) (r : Obj) (vec : List Obj)
    (h : strictDisjoint r t = false) :
    (getRect t r vec).snd = Except.ok () ∧
    ∃ pre, (getRect t r vec).fst = pre ++ t.contents :=
  getRect_overlap h

theorem query_overlap_appends_witness :
    (getRect demoT1 demoProbe []).snd = Except.ok () ∧
    ∃ pre, (getRect demoT1 demoProbe []).fst = pre ++ demoT1.contents :=
  query_overlap_appends demoT1 demoProbe []
    (by norm_num [strictDisjoint, demoT1, demoProbe])

/-- Claim C6: the containment invariant — every object stored anywhere in
the subtree rooted at a node fits entirely within that node's bounds — is
preserved by every insert, successful or not. -/
theorem insert_preserves_containment (n : Nat) (t t' : Quadtree) (o : Obj)
    (r : RustRes) (hct : containB t = true)
    (h : insertF n t o = Option.some (t', r)) : containB t' = true :=
  containB_insertF hct h

theorem insert_preserves_containment_witness : containB demoT1 = true :=
  insert_preserves_containment 2 demoRoot demoT1 demoA (Except.ok ())
    (containB_new (-200) 200 400 400) demo_insertA_fuel2

/-- Claim C7: structural subdivision invariant.  A second subdivide call
is a no-op; subdividing an undivided node creates exactly the four
quadrant children, empty, with half extents, anchored at the quadrant
corners, and marks the node divided; the invariant "divided holds exactly
when all four children are present, and every child covers its quadrant"
holds for fresh nodes and is preserved by every insert; and any insert
whose containment check passes leaves the node divided. -/
theorem subdivision_invariant :
    (∀ t : Quadtree, t.divided = true → t.subdivide = t) ∧
    (∀ t : Quadtree, t.divided = false → t.subdivide = Quadtree.node
      t.position_x t.position_y t.width t.height true
      (OQuad.some (Quadtree.new (t.position_x + t.width / 2) t.position_y
        (t.width / 2) (t.height / 2)))
      (OQuad.some (Quadtree.new t.position_x t.position_y (t.width / 2)
        (t.height / 2)))
      (OQuad.some (Quadtree.new (t.position_x + t.width / 2)
        (t.position_y - t.height / 2) (t.width / 2) (t.height / 2)))
      (OQuad.some (Quadtree.new t.position_x (t.position_y - t.height / 2)
        (t.width / 2) (t.height / 2)))
      t.contents) ∧
    (∀ px py w h : ℚ, quadInv (Quadtree.new px py w h) = true) ∧
    (∀ n : Nat, ∀ t t' : Quadtree, ∀ o : Obj, ∀ r : RustRes,
      quadInv t = true → insertF n t o = Option.some (t', r) →
      quadInv t' = true) ∧
    (∀ n : Nat, ∀ t t' : Quadtree, ∀ o : Obj, ∀ r : RustRes,
      fitsQ o t = true → insertF n t o = Option.some (t', r) →
      t'.divided = true) := by
  refine ⟨fun t h => subdivide_of_divided h, ?_, fun px py w h => quadInv_new px py w h,
    fun n t t' o r hqi h => quadInv_insertF hqi h, ?_⟩
  · intro t hd
    cases t with
    | node px py w h dv ne nw se sw cs =>
      simp only [divided_node] at hd
      subst hd
      simp [Quadtree.subdivide]
  · intro n t t' o r hf h
    rw [insertF_fits_ok hf h] at h
    exact insertF_ok_divided h

theorem subdivision_invariant_witness : demoT0.subdivide = demoT0 :=
  subdivision_invariant.1 demoT0 rfl

/-- Claim C8: the concrete demo scenario.  With the root anchored at
`(-200, 200)` and width = height = 400, inserting rectangle A at `(1, 1)`
with size `(2, 2)` succeeds, inserting rectangle B at `(190, 190)` with
size `(2, 2)` succeeds, and querying with the probe anchored at
`(-199, 199)` with width = height = 360 succeeds with an output that
includes A. -/
theorem concrete_scenario :
    ∃ t1 t2 : Quadtree,
      insertF 10 demoRoot demoA = Option.some (t1, Except.ok ()) ∧
      insertF 10 t1 demoB = Option.some (t2, Except.ok ()) ∧
      (getRect t2 demoProbe []).snd = Except.ok () ∧
      demoA ∈ (getRect t2 demoProbe []).fst := by
  have hfitsBne : fitsQ demoB (Quadtree.new 0 200 200 200) = true := by
    norm_num [fitsQ, fitsE, Quadtree.new, demoB]
  obtain ⟨⟨ne', rr⟩, h8⟩ := insertF_total_aux 7 (Quadtree.new 0 200 200 200)
    demoB (quadInv_new 0 200 200 200)
    (Or.inl ⟨by norm_num [demoB], by norm_num [Quadtree.new, demoB]⟩)
  rw [insertF_fits_ok hfitsBne h8] at h8
  have h9 : insertF 9 (Quadtree.new 0 200 200 200) demoB =
      Option.some (ne', Except.ok ()) := insertF_mono_le (by omega) h8
  have hpt : preIns demoT1 = demoT1 := preIns_of_divided rfl
  have hneacc : (preIns demoT1).northeast_quad =
      OQuad.some (Quadtree.new 0 200 200 200) := by rw [hpt]; rfl
  have hB := insertF_chain1 demo_fitsB hneacc h9
  rw [hpt] at hB
  have hdisj : strictDisjoint demoProbe (demoT1.withNE (OQuad.some ne'))
      = false := by
    norm_num [strictDisjoint, demoT1, demoProbe]
  obtain ⟨hsnd, pre, hfst⟩ :=
    @getRect_overlap (demoT1.withNE (OQuad.some ne')) demoProbe [] hdisj
  refine ⟨demoT1, demoT1.withNE (OQuad.some ne'), demo_insertA, hB, hsnd, ?_⟩
  rw [hfst]
  have hcs : (demoT1.withNE (OQuad.some ne')).contents = [demoA] := rfl
  rw [hcs]
  exact List.mem_append.mpr (Or.inr (by simp))

/-- Claim C9: insert terminates (some fuel suffices) for every object of
positive width or positive height in a structurally well-formed tree,
because such an object eventually fails every child containment check once
quadrant extents drop below its own; and with no depth cap, a zero-size
object placed exactly on the recurring subdivision corner recurses for
ever — no amount of fuel makes insert return. -/
theorem insert_termination :
    (∀ t : Quadtree, ∀ o : Obj, quadInv t = true → fitsQ o t = true →
      (0 < o.east - o.west ∨ 0 < o.north - o.south) →
      ∃ n r, insertF n t o = Option.some r) ∧
    (∀ n : Nat,
      insertF n (Quadtree.new 0 1 1 1) (cornerObj 0 0) = Option.none) := by
  constructor
  · intro t o hqi _ hs
    exact insertF_total hqi hs
  · intro n
    have h := insertF_corner_none n 0 1 1 1 (by norm_num) (by norm_num)
    rw [show (1 : ℚ) - 1 = 0 from by norm_num] at h
    exact h

theorem insert_termination_witness :
    ∃ n r, insertF n demoT0 demoO = Option.some r :=
  insert_termination.1 demoT0 demoO
    (by norm_num [quadInv, demoT0, Quadtree.new, childBoundsO, isSomeO,
      quadInvO])
    (by norm_num [fitsQ, fitsE, demoT0, demoO])
    (Or.inl (by norm_num [demoO]))

/-- Claim C10 (implicit): every query call, successful or failing, only
appends to the output vector — the elements present before the call are
preserved unchanged and in order as a prefix of the vector after the
call, and the result status does not depend on the prior contents. -/
theorem query_appends_only (t : Quadtree) (r : Obj) (vec : List Obj) :
    (getRect t r vec).fst = vec ++ (getRect t r []).fst ∧
    (getRect t r vec).snd = (getRect t r []).snd := by
  have h := getRect_frame.1 t r vec []
  rw [List.append_nil] at h
  exact h
